import Mathlib

/-!
Verification of the crow incremental-build engine against its specification.

The development shallowly embeds the data model and operations of the
repository (src/crow/model.py, src/crow/project.py, src/crow/db.py,
src/crow/live.py). Filesystem paths are lists of segments; the filesystem is a
finite association list from paths to (content, modification marker); the
record store is the list of page rows held by the sqlite `pages` table; the
engine's public operation `get_rendered_content` is translated to an explicit
state-passing function that also returns a trace of the externally observable
events (store clears/inserts/updates, renderer prepare/render calls).
-/

namespace Crow

/-- A filesystem path, as its list of segments (the `parts` of a pathlib
`Path`). -/
abbrev FsPath := List String

/-- Translation of CPython `PurePath.stem`: the final path component without
its suffix, where the suffix is the part from the last dot provided that dot
is neither the first nor the last character of the name. -/
def lastDotIdx : List Char → Option Nat
  | [] => none
  | c :: cs =>
    match lastDotIdx cs with
    | some i => some (i + 1)
    | none => if c = '.' then some 0 else none

/-- Computes the stem of one path segment, mirroring `pathlib`'s `.stem` used
by `Page.from_source_path` (src/crow/model.py line 59). -/
def stem (name : String) : String :=
  let cs := name.toList
  match lastDotIdx cs with
  | some i => if 0 < i ∧ i < cs.length - 1 then String.mk (cs.take i) else name
  | none => name

/-- Translation of Python `"/".join`. -/
def joinSlash : List String → String
  | [] => ""
  | [s] => s
  | s :: rest => s ++ "/" ++ joinSlash rest

/-- A page record, translated from the pydantic model `Page`
(src/crow/model.py): title, source path, TOC (hierarchical) path and the
last-rendered modification marker (0 before the first render; modification
markers are embedded as naturals). -/
structure Page where
  title : String
  source_path : FsPath
  toc_path : String
  modified : Nat
deriving DecidableEq, Repr

/-- Translation of `Page.from_source_path` (src/crow/model.py lines 44-88):
derives (title, toc_path) from the source path's segments relative to the
project root, with the special `index` handling. -/
def Page.from_source_path (source_path : FsPath) (project_dir : FsPath) : Page :=
  let rel := source_path.drop project_dir.length
  if stem (source_path.getLastD "") = "index" then
    if rel.length > 1 then
      { title := rel.getD (rel.length - 2) ""
        source_path := source_path
        toc_path := joinSlash rel.dropLast
        modified := 0 }
    else
      { title := "", source_path := source_path, toc_path := "", modified := 0 }
  else
    let title := stem (source_path.getLastD "")
    if rel.length ≥ 2 then
      { title := title
        source_path := source_path
        toc_path := joinSlash (rel.dropLast ++ [title])
        modified := 0 }
    else
      { title := title, source_path := source_path, toc_path := "", modified := 0 }

/-! ### Natural ("human") ordering

Modelled from the spec: `natsort.os_sorted` is an external dependency of
`Project.build` (src/crow/project.py line 57); the spec describes it as
natural/human ordering in which numeric substrings compare numerically rather
than lexically. A string is keyed by its maximal runs of digits (compared as
numbers) and non-digits (compared as strings); paths compare segmentwise. -/

/-- One chunk of a natural-sort key: a numeric run or a non-digit run. -/
abbrev NatChunk := Sum Nat String

/-- Extends a reversed chunk list by one character. -/
def pushChar (acc : List NatChunk) (c : Char) : List NatChunk :=
  if c.isDigit then
    match acc with
    | .inl n :: rest => .inl (n * 10 + (c.toNat - 48)) :: rest
    | _ => .inl (c.toNat - 48) :: acc
  else
    match acc with
    | .inr s :: rest => .inr (s.push c) :: rest
    | _ => .inr (String.mk [c]) :: acc

/-- Modelled from the spec: the natural-sort key of a string. -/
def natKey (s : String) : List NatChunk :=
  (s.toList.foldl pushChar []).reverse

/-- Compares two key chunks; numeric runs sort before textual runs. -/
def chunkCmp : NatChunk → NatChunk → Ordering
  | .inl a, .inl b => compare a b
  | .inl _, .inr _ => .lt
  | .inr _, .inl _ => .gt
  | .inr a, .inr b => compare a b

/-- Lexicographic comparison of lists by a base comparison. -/
def listCmp (cmp : α → α → Ordering) : List α → List α → Ordering
  | [], [] => .eq
  | [], _ :: _ => .lt
  | _ :: _, [] => .gt
  | a :: as, b :: bs =>
    match cmp a b with
    | .eq => listCmp cmp as bs
    | o => o

/-- Modelled from the spec: natural comparison of two path segments. -/
def segCmp (a b : String) : Ordering :=
  listCmp chunkCmp (natKey a) (natKey b)

/-- Modelled from the spec: natural "less or equal" on whole paths,
segmentwise. -/
def pathLe (p q : FsPath) : Bool :=
  match listCmp segCmp p q with
  | .gt => false
  | _ => true

/-- Modelled from the spec: natural sort of discovered locations, standing
for `natsort.os_sorted`. -/
def natSortPaths (l : List FsPath) : List FsPath :=
  l.insertionSort (fun p q => pathLe p q = true)

/-! ### Filesystem model -/

/-- One file on disk: its path, content and modification marker. -/
structure FSEntry where
  path : FsPath
  content : String
  mtime : Nat
deriving DecidableEq, Repr

/-- The filesystem: a finite list of files; list order stands for the
(filesystem-dependent) enumeration order of `Path.glob`. -/
structure FS where
  files : List FSEntry
deriving DecidableEq, Repr

/-- Reads a file's content (`Path.read_text`), if present. -/
def FS.readFile (fs : FS) (p : FsPath) : Option String :=
  (fs.files.find? (fun e => e.path == p)).map (·.content)

/-- Reads a file's modification marker (`os.path.getmtime`), if present. -/
def FS.mtime (fs : FS) (p : FsPath) : Option Nat :=
  (fs.files.find? (fun e => e.path == p)).map (·.mtime)

/-- Writes a file (`Path.write_text`): overwrites the content of every entry
at that path bumping its marker, or appends a fresh entry. -/
def FS.write (fs : FS) (p : FsPath) (c : String) : FS :=
  if fs.files.any (fun e => e.path == p) then
    ⟨fs.files.map (fun e => if e.path == p then ⟨p, c, e.mtime + 1⟩ else e)⟩
  else
    ⟨fs.files ++ [⟨p, c, 0⟩]⟩

/-- An external edit of one existing file: replaces the content and marker of
the entries at that path, leaving every other file untouched. -/
def FS.touch (fs : FS) (p : FsPath) (c : String) (m : Nat) : FS :=
  ⟨fs.files.map (fun e => if e.path == p then ⟨p, c, m⟩ else e)⟩

/-! ### Project index (src/crow/project.py) -/

/-- Engine configuration: project root, build directory, the source extension
of the discovery glob `**/*.{src_extension}`, the output extension, the
structural hash function (Python's `hash` of the tuple of discovered paths,
kept abstract as a parameter), and the external renderer's pure `render`
function. -/
structure Config where
  root : FsPath
  build_path : FsPath
  src_extension : String
  output_extension : String
  hashFn : List FsPath → Int
  render : String → Page → String

/-- Whether a string ends with the given suffix (Python `str.endswith`,
the file-name test of the `*.{ext}` glob component). -/
def strEndsWith (s suffix : String) : Bool :=
  suffix.toList.isSuffixOf s.toList

/-- Whether a path is matched by the discovery glob `**/*.{ext}` rooted at
`root`: strictly below the root, with the matching extension. -/
def matchesGlob (root : FsPath) (ext : String) (p : FsPath) : Bool :=
  root.isPrefixOf p && decide (root.length < p.length) &&
    strEndsWith (p.getLastD "") ("." ++ ext)

/-- Translation of `Project.structure_get_actual` (src/crow/project.py lines
61-69): the discovered source locations, in filesystem enumeration order. -/
def discover (cfg : Config) (fs : FS) : List FsPath :=
  fs.files.filterMap (fun e =>
    if matchesGlob cfg.root cfg.src_extension e.path then some e.path else none)

/-- Translation of `Project.structure_hash_get_actual` (src/crow/project.py
lines 71-79): the structural fingerprint of the current discovery. -/
def fingerprint (cfg : Config) (fs : FS) : Int :=
  cfg.hashFn (discover cfg fs)

/-- The project index's in-memory state (`Project.__init__`,
src/crow/project.py lines 29-42). -/
structure ProjectState where
  pages_stored : List Page
  structure_stored : List FsPath
  structure_hash_stored : Int
deriving DecidableEq, Repr

/-- Derives the sorted page list from a discovered structure, as the loop of
`Project.build` does (src/crow/project.py lines 57-58). -/
def rebuildPages (cfg : Config) (structureActual : List FsPath) : List Page :=
  (natSortPaths structureActual).map (fun p => Page.from_source_path p cfg.root)

/-- Translation of `Project.build` (src/crow/project.py lines 44-59): clears
the page list, stores the fresh structure and its hash, fills the page list in
natural order, and returns the (unsorted) stored structure. -/
def projectBuild (cfg : Config) (fs : FS) : ProjectState × List FsPath :=
  let structureActual := discover cfg fs
  (⟨rebuildPages cfg structureActual, structureActual, cfg.hashFn structureActual⟩,
   structureActual)

/-! ### Record store (src/crow/db.py) -/

/-- Operational failures: a missing file, or the store's uniqueness violation
(sqlite `IntegrityError` on the `title` primary key). -/
inductive Err where
  | fileNotFound (p : FsPath)
  | duplicateTitle (t : String)
deriving DecidableEq, Repr

/-- Translation of `page_get_by_title` (src/crow/db.py lines 109-121): the
first row whose title matches, if any. -/
def page_get_by_title (store : List Page) (title : String) : Option Page :=
  store.find? (fun r => r.title == title)

/-- Translation of `page_update_modified` (src/crow/db.py lines 124-131):
updates the `modified` column of the rows with the page's title, leaving all
other columns and rows unchanged. -/
def page_update_modified (store : List Page) (page : Page) : List Page :=
  store.map (fun r =>
    if r.title == page.title then { r with modified := page.modified } else r)

/-- The row-by-row effect of `executemany INSERT` under the `title` primary
key (src/crow/db.py lines 134-145): each insert fails if its title is already
present. -/
def pages_add_go (cur : List Page) : List Page → Except Err (List Page)
  | [] => .ok cur
  | r :: rs =>
    if cur.any (fun x => x.title == r.title) then .error (.duplicateTitle r.title)
    else pages_add_go (cur ++ [r]) rs

/-- Translation of `pages_add` (src/crow/db.py lines 134-145): inserts all
records in one transaction; an error means the transaction is rolled back by
`connect` (src/crow/db.py lines 93-96). -/
def pages_add (store : List Page) (recs : List Page) : Except Err (List Page) :=
  pages_add_go store recs

/-- The store contents after the `pages_add` transaction finishes: the new
rows on commit, the untouched prior rows on rollback. -/
def pages_add_state (store : List Page) (recs : List Page) : List Page :=
  match pages_add store recs with
  | .ok store' => store'
  | .error _ => store

/-! ### Incremental build engine (src/crow/live.py) -/

/-- Externally observable events of one engine operation, in order: store
clear, project index rebuild, the renderer `build` (prepare) hook, one
renderer `render` call per page, the store's single-field mark update, and the
store bulk insert. -/
inductive Event where
  | clearStore
  | rebuildIndex
  | prepare (pages : List Page)
  | renderPage (page : Page)
  | updateMark (title : String) (mark : Nat)
  | insert (pages : List Page)
deriving DecidableEq, Repr

/-- The pages carried by the `renderPage` events of a trace. -/
def rendersOf (tr : List Event) : List Page :=
  tr.filterMap (fun e => match e with | .renderPage p => some p | _ => none)

/-- The engine's in-memory-plus-store state: the record store rows and the
project index state. -/
structure EngineState where
  store : List Page
  proj : ProjectState
deriving DecidableEq, Repr

instance exceptDecEq {ε α : Type} [DecidableEq ε] [DecidableEq α] :
    DecidableEq (Except ε α)
  | .ok x, .ok y => decidable_of_iff (x = y) (by simp)
  | .error e, .error f => decidable_of_iff (e = f) (by simp)
  | .ok _, .error _ => .isFalse (fun h => by cases h)
  | .error _, .ok _ => .isFalse (fun h => by cases h)

/-- The outcome of one engine operation: result (or surfaced error), the
engine state and filesystem afterwards, and the event trace. The state and
filesystem are returned even on error because the store and the disk survive a
Python exception. -/
structure Outcome (α : Type) where
  res : Except Err α
  state : EngineState
  fs : FS
  tr : List Event
deriving DecidableEq, Repr

/-- Translation of `LiveProject.page_output_path` (src/crow/live.py lines
143-152): `build_path / (title ++ "." ++ output_extension)`. -/
def outputPath (cfg : Config) (page : Page) : FsPath :=
  cfg.build_path ++ [page.title ++ "." ++ cfg.output_extension]

/-- Translation of `LiveProject.render` (src/crow/live.py lines 126-141):
reads the source, stamps the page with the source's current marker, renders,
and writes the output file; `none` when the source file is missing. -/
def renderOne (cfg : Config) (fs : FS) (page : Page) : Option (FS × Page) :=
  match fs.readFile page.source_path, fs.mtime page.source_path with
  | some src, some m =>
    let page' := { page with modified := m }
    let out := cfg.render src page'
    some (fs.write (outputPath cfg page') out, page')
  | _, _ => none

/-- The render loop of `LiveProject.build` (src/crow/live.py lines 121-122):
renders the pages in order, threading the filesystem; on a missing source it
stops, reporting the error and the pages rendered so far. -/
def renderAll (cfg : Config) (fs : FS) : List Page → FS × List Page × Option Err
  | [] => (fs, [], none)
  | p :: ps =>
    match renderOne cfg fs p with
    | none => (fs, [], some (.fileNotFound p.source_path))
    | some (fs', p') =>
      let rest := renderAll cfg fs' ps
      (rest.1, p' :: rest.2.1, rest.2.2)

/-- Translation of `LiveProject.build` (src/crow/live.py lines 105-124): clear
the store, rebuild the project index, call the renderer's prepare hook with
the fresh page list, render every page (mutating each page's marker in place),
then bulk-insert the rendered records. -/
def buildE (cfg : Config) (s : EngineState) (fs : FS) : Outcome Unit :=
  let store0 : List Page := []
  let proj' := (projectBuild cfg fs).1
  let pages := proj'.pages_stored
  let tr0 := [Event.clearStore, Event.rebuildIndex, Event.prepare pages]
  let r := renderAll cfg fs pages
  match r.2.2 with
  | some e =>
    ⟨.error e,
     ⟨store0, { proj' with pages_stored := r.2.1 ++ pages.drop r.2.1.length }⟩,
     r.1, tr0 ++ r.2.1.map Event.renderPage⟩
  | none =>
    match pages_add store0 r.2.1 with
    | .error e =>
      ⟨.error e, ⟨store0, { proj' with pages_stored := r.2.1 }⟩,
       r.1, tr0 ++ r.2.1.map Event.renderPage⟩
    | .ok store' =>
      ⟨.ok (), ⟨store', { proj' with pages_stored := r.2.1 }⟩,
       r.1, tr0 ++ r.2.1.map Event.renderPage ++ [Event.insert r.2.1]⟩

/-- Translation of `LiveProject.is_project_needs_rebuild` (src/crow/live.py
lines 154-162): the stored and current structural fingerprints differ. -/
def is_project_needs_rebuild (cfg : Config) (s : EngineState) (fs : FS) : Bool :=
  s.proj.structure_hash_stored != fingerprint cfg fs

/-- The freshness phase of `get_rendered_content` (src/crow/live.py lines
82-84): a full rebuild when the fingerprints differ, otherwise nothing. -/
def rebuildPhase (cfg : Config) (s : EngineState) (fs : FS) : Outcome Unit :=
  if is_project_needs_rebuild cfg s fs then buildE cfg s fs else ⟨.ok (), s, fs, []⟩

/-- The lookup-and-serve phase of `get_rendered_content` (src/crow/live.py
lines 86-103), run after freshness is ensured: look the title up in the store
(`none` when absent), re-render on a marker mismatch persisting the
single-field update, then read and return the output file. `tr0` is the trace
accumulated by the freshness phase. -/
def lookupPhase (cfg : Config) (s : EngineState) (fs : FS) (tr0 : List Event)
    (title : String) : Outcome (Option String) :=
  match page_get_by_title s.store title with
  | none => ⟨.ok none, s, fs, tr0⟩
  | some page =>
    match fs.mtime page.source_path with
    | none => ⟨.error (.fileNotFound page.source_path), s, fs, tr0⟩
    | some m =>
      if m != page.modified then
        match renderOne cfg fs page with
        | none => ⟨.error (.fileNotFound page.source_path), s, fs, tr0⟩
        | some (fs2, page') =>
          let s2 : EngineState := ⟨page_update_modified s.store page', s.proj⟩
          let tr2 := tr0 ++ [Event.renderPage page', Event.updateMark page'.title page'.modified]
          match fs2.readFile (outputPath cfg page') with
          | some c => ⟨.ok (some c), s2, fs2, tr2⟩
          | none => ⟨.error (.fileNotFound (outputPath cfg page')), s2, fs2, tr2⟩
      else
        match fs.readFile (outputPath cfg page) with
        | some c => ⟨.ok (some c), s, fs, tr0⟩
        | none => ⟨.error (.fileNotFound (outputPath cfg page)), s, fs, tr0⟩

/-- Translation of `LiveProject.get_rendered_content` (src/crow/live.py lines
69-103): ensure freshness (surfacing any rebuild failure), then run the
lookup-and-serve phase. -/
def get_rendered_content (cfg : Config) (s : EngineState) (fs : FS) (title : String) :
    Outcome (Option String) :=
  let ph := rebuildPhase cfg s fs
  match ph.res with
  | .error e => ⟨.error e, ph.state, ph.fs, ph.tr⟩
  | .ok _ => lookupPhase cfg ph.state ph.fs ph.tr title

/-- Translation of `Project.__init__` (src/crow/project.py lines 36-42)
together with `db.init` (src/crow/db.py lines 37-65) as performed by
`LiveProject.__init__` (src/crow/live.py lines 53-67): the store file is
truncated regardless of its prior content, and the index starts with an empty
page list, empty structure and stored hash 0. -/
def initEngineState : EngineState :=
  ⟨[], ⟨[], [], 0⟩⟩

/-- Translation of `LiveProject.__init__` (src/crow/live.py lines 33-67): the
constructor stores the configuration, truncates and re-creates the record
store, and builds the (empty) project index; it performs no check on the root
or build paths and never fails on them. -/
def liveProjectInit (cfg : Config) (prevStore : List Page) (fs : FS) :
    Except Err EngineState :=
  .ok initEngineState

/-! ### General helper lemmas -/

theorem getLastD_append (l₁ l₂ : List String) (h : l₂ ≠ []) :
    (l₁ ++ l₂).getLastD "" = l₂.getLastD "" := by
  rw [List.getLastD_eq_getLast?, List.getLastD_eq_getLast?,
    List.getLast?_append_of_ne_nil _ h]

theorem joinSlash_concat (l : List String) (s : String) (h : l ≠ []) :
    joinSlash (l ++ [s]) = joinSlash l ++ "/" ++ s := by
  induction l with
  | nil => simp at h
  | cons a as ih =>
    cases as with
    | nil => simp [joinSlash]
    | cons b bs =>
      have h2 : (b :: bs : List String) ≠ [] := by simp
      show a ++ "/" ++ joinSlash ((b :: bs) ++ [s]) = joinSlash (a :: b :: bs) ++ "/" ++ s
      rw [ih h2]
      show a ++ "/" ++ (joinSlash (b :: bs) ++ "/" ++ s) =
        (a ++ "/" ++ joinSlash (b :: bs)) ++ "/" ++ s
      simp [String.append_assoc]

/-- Normal form of `Page.from_source_path` on a path written as root plus
relative parts. -/
theorem from_source_path_append (root parts : List String) (h : parts ≠ []) :
    Page.from_source_path (root ++ parts) root =
      (if stem (parts.getLastD "") = "index" then
        if parts.length > 1 then
          { title := parts.getD (parts.length - 2) ""
            source_path := root ++ parts
            toc_path := joinSlash parts.dropLast
            modified := 0 }
        else ⟨"", root ++ parts, "", 0⟩
      else if parts.length ≥ 2 then
        { title := stem (parts.getLastD "")
          source_path := root ++ parts
          toc_path := joinSlash (parts.dropLast ++ [stem (parts.getLastD "")])
          modified := 0 }
      else ⟨stem (parts.getLastD ""), root ++ parts, "", 0⟩) := by
  simp only [Page.from_source_path, List.drop_left, getLastD_append _ _ h]

/-- C2: Identity Derivation follows the spec's four cases — `index` files
deeper than the root take the enclosing folder as title and the folder chain
as hierarchical path; a root-level `index` takes empty title and path;
non-index files take the extension-stripped base name as title, with the
final path segment replaced by the title when nested and an empty path at the
root — and the four §8 examples hold. -/
theorem identity_derivation (root parts : List String) (hne : parts ≠ []) :
    ((stem (parts.getLastD "") = "index" →
      (1 < parts.length →
        (Page.from_source_path (root ++ parts) root).title =
          parts.getD (parts.length - 2) "" ∧
        (Page.from_source_path (root ++ parts) root).toc_path =
          joinSlash parts.dropLast) ∧
      (parts.length = 1 →
        (Page.from_source_path (root ++ parts) root).title = "" ∧
        (Page.from_source_path (root ++ parts) root).toc_path = "")) ∧
    (stem (parts.getLastD "") ≠ "index" →
      (Page.from_source_path (root ++ parts) root).title = stem (parts.getLastD "") ∧
      (2 ≤ parts.length →
        (Page.from_source_path (root ++ parts) root).toc_path =
          joinSlash parts.dropLast ++ "/" ++ stem (parts.getLastD "")) ∧
      (parts.length = 1 →
        (Page.from_source_path (root ++ parts) root).toc_path = ""))) ∧
    (Page.from_source_path ["index.html"] [] = ⟨"", ["index.html"], "", 0⟩ ∧
     Page.from_source_path ["chapter1", "index.html"] [] =
       ⟨"chapter1", ["chapter1", "index.html"], "chapter1", 0⟩ ∧
     Page.from_source_path ["chapter1", "1.1 Welcome.html"] [] =
       ⟨"1.1 Welcome", ["chapter1", "1.1 Welcome.html"], "chapter1/1.1 Welcome", 0⟩ ∧
     Page.from_source_path ["top.html"] [] = ⟨"top", ["top.html"], "", 0⟩) := by
  have hnf := from_source_path_append root parts hne
  constructor
  · constructor
    · intro hidx
      constructor
      · intro hlen
        rw [hnf, if_pos hidx, if_pos hlen]
        exact ⟨rfl, rfl⟩
      · intro hlen
        rw [hnf, if_pos hidx, if_neg (show ¬ 1 < parts.length by omega)]
        exact ⟨rfl, rfl⟩
    · intro hidx
      refine ⟨?_, ?_, ?_⟩
      · rw [hnf, if_neg hidx]
        by_cases h2 : 2 ≤ parts.length
        · rw [if_pos h2]
        · rw [if_neg h2]
      · intro h2
        rw [hnf, if_neg hidx, if_pos h2]
        have hdl : parts.dropLast ≠ [] := by
          have hl : parts.dropLast.length = parts.length - 1 := List.length_dropLast parts
          intro hc
          rw [hc] at hl
          simp only [List.length_nil] at hl
          omega
        show joinSlash (parts.dropLast ++ [stem (parts.getLastD "")]) = _
        rw [joinSlash_concat _ _ hdl]
      · intro h1
        rw [hnf, if_neg hidx, if_neg (show ¬ 2 ≤ parts.length by omega)]
  · exact ⟨by decide, by decide, by decide, by decide⟩

/-- Witness for `identity_derivation` at the nested-index example
`r/ch/index.html`. -/
theorem identity_derivation_witness :
    (Page.from_source_path (["r"] ++ ["ch", "index.html"]) ["r"]).title =
      (["ch", "index.html"] : List String).getD 0 "" := by
  have h := identity_derivation ["r"] ["ch", "index.html"] (by decide)
  exact ((h.1.1 (by decide)).1 (by decide)).1

/-- C10: construction truncates the record store regardless of its prior
content, stores fingerprint 0 and an empty page list, and therefore the first
content request of a session triggers a full rebuild exactly when the current
structural fingerprint is nonzero. -/
theorem construction_resets_state (cfg : Config) (prevStore : List Page) (fs : FS) :
    liveProjectInit cfg prevStore fs = .ok initEngineState ∧
    initEngineState.store = [] ∧
    initEngineState.proj.structure_hash_stored = 0 ∧
    initEngineState.proj.pages_stored = [] ∧
    (is_project_needs_rebuild cfg initEngineState fs = true ↔ fingerprint cfg fs ≠ 0) := by
  refine ⟨rfl, rfl, rfl, rfl, ?_⟩
  simp only [is_project_needs_rebuild, initEngineState, bne_iff_ne]
  exact ne_comm

/-- A configuration whose root and build directories do not exist on the
(empty) filesystem used below. -/
def cfgNoRoot : Config :=
  ⟨["no_such_dir"], ["no_such_build"], "html", "html", fun _ => 0, fun s _ => s⟩

/-- C9 counterexample: on an empty filesystem — where the configured root and
output directories do not exist at all — construction still succeeds instead
of raising an error. -/
theorem construction_no_validation_cex :
    liveProjectInit cfgNoRoot [] ⟨[]⟩ = .ok initEngineState ∧
    (FS.mk []).files = [] := ⟨rfl, rfl⟩

/-- C9 amended: construction never validates the project root or output path;
it only re-initializes the record store, and succeeds for every configuration,
prior store content and filesystem. -/
theorem construction_never_validates_paths (cfg : Config) (prevStore : List Page)
    (fs : FS) : liveProjectInit cfg prevStore fs = .ok initEngineState := rfl

/-- Identity derivation keeps the discovered location as the record's source
path, in every branch. -/
theorem from_source_path_source (p root : FsPath) :
    (Page.from_source_path p root).source_path = p := by
  unfold Page.from_source_path
  split
  · dsimp only
    split <;> rfl
  · dsimp only
    split <;> rfl

/-- A small concrete configuration used by witnesses and counterexamples:
root `r`, build directory `b`, html in and out, the list length as the
structural hash, and a renderer that appends `!`. -/
def cfgEx : Config :=
  ⟨["r"], ["b"], "html", "html", fun l => (l.length : Int), fun s _ => s ++ "!"⟩

/-- A project whose files are enumerated by the filesystem out of natural
order: `1.10.html`, `1.1.html`, `1.2.html`. -/
def fsNatEx : FS :=
  ⟨[⟨["r", "1.10.html"], "x", 1⟩, ⟨["r", "1.1.html"], "y", 2⟩,
    ⟨["r", "1.2.html"], "z", 3⟩]⟩

/-- C6 counterexample: `Project.build` does not return the page records in
natural order — its return value is the raw discovered location list in
filesystem order (`1.10` before `1.1` and `1.2`), while the naturally sorted
page sequence is only stored in the index's page list. -/
theorem project_build_return_cex :
    (projectBuild cfgEx fsNatEx).2.map (fun p => stem (p.getLastD "")) =
      ["1.10", "1.1", "1.2"] ∧
    (projectBuild cfgEx fsNatEx).1.pages_stored.map Page.title =
      ["1.1", "1.2", "1.10"] := ⟨by decide, by decide⟩

/-- C6 amended: `Project.build` sorts the discovered locations naturally
(numeric substrings comparing numerically, so `1.2` precedes `1.10`), derives
one page record per discovered location and stores them in this sorted order
as the index's page list; the method's return value is the raw discovered
location list in discovery order, not the sorted page sequence. -/
theorem project_build_sorts_naturally (cfg : Config) (fs : FS) :
    (projectBuild cfg fs).2 = discover cfg fs ∧
    (projectBuild cfg fs).1.pages_stored =
      (natSortPaths (discover cfg fs)).map
        (fun p => Page.from_source_path p cfg.root) ∧
    ((projectBuild cfg fs).1.pages_stored.map Page.source_path).Perm
      (discover cfg fs) ∧
    (projectBuild cfgEx fsNatEx).1.pages_stored.map Page.title =
      ["1.1", "1.2", "1.10"] := by
  refine ⟨rfl, rfl, ?_, by decide⟩
  show ((rebuildPages cfg (discover cfg fs)).map Page.source_path).Perm
    (discover cfg fs)
  unfold rebuildPages
  rw [List.map_map]
  have hmap : (fun p => (Page.from_source_path p cfg.root).source_path) =
      (fun p : FsPath => p) := by
    funext p
    exact from_source_path_source p cfg.root
  show ((natSortPaths (discover cfg fs)).map
    (Page.source_path ∘ fun p => Page.from_source_path p cfg.root)).Perm
    (discover cfg fs)
  have : (Page.source_path ∘ fun p => Page.from_source_path p cfg.root) =
      (fun p : FsPath => p) := by
    funext p
    exact from_source_path_source p cfg.root
  rw [this, List.map_id_fun']
  exact List.perm_insertionSort _ _

/-! ### Record-store lemmas -/

theorem pages_add_go_ok_val (recs : List Page) : ∀ st l : List Page,
    pages_add_go st recs = .ok l → l = st ++ recs := by
  induction recs with
  | nil =>
    intro st l h
    unfold pages_add_go at h
    injection h with h1
    simp [h1.symm]
  | cons r rs ih =>
    intro st l h
    unfold pages_add_go at h
    split at h
    · cases h
    · have h2 := ih (st ++ [r]) l h
      simp [h2]

theorem pages_add_go_error_shape (recs : List Page) : ∀ st e,
    pages_add_go st recs = .error e → ∃ t, e = .duplicateTitle t := by
  induction recs with
  | nil =>
    intro st e h
    cases h
  | cons r rs ih =>
    intro st e h
    unfold pages_add_go at h
    split at h
    · injection h with h1
      exact ⟨r.title, h1.symm⟩
    · exact ih _ _ h

theorem pages_add_go_ok_iff (recs : List Page) : ∀ st : List Page,
    (∃ l, pages_add_go st recs = .ok l) ↔
      ((recs.map Page.title).Nodup ∧
        ∀ r ∈ recs, r.title ∉ st.map Page.title) := by
  induction recs with
  | nil =>
    intro st
    simp [pages_add_go]
  | cons r rs ih =>
    intro st
    unfold pages_add_go
    by_cases hmem : st.any (fun x => x.title == r.title) = true
    · rw [if_pos hmem]
      have hr : r.title ∈ st.map Page.title := by
        obtain ⟨x, hx, hxt⟩ := List.any_eq_true.mp hmem
        exact List.mem_map.mpr ⟨x, hx, eq_of_beq hxt⟩
      constructor
      · rintro ⟨l, hl⟩
        cases hl
      · rintro ⟨-, hall⟩
        exact absurd hr (hall r (List.mem_cons_self r rs))
    · rw [if_neg hmem]
      rw [ih (st ++ [r])]
      have hr : r.title ∉ st.map Page.title := by
        intro hc
        apply hmem
        obtain ⟨x, hx, hxt⟩ := List.mem_map.mp hc
        exact List.any_eq_true.mpr ⟨x, hx, beq_iff_eq.mpr hxt⟩
      constructor
      · rintro ⟨hnd, hall⟩
        have hfresh : ∀ x ∈ rs, x.title ∉ st.map Page.title ∧ x.title ≠ r.title := by
          intro x hx
          have h3 := hall x hx
          simp only [List.map_append, List.mem_append, List.map_cons,
            List.map_nil, List.mem_singleton] at h3
          exact ⟨fun hc => h3 (Or.inl hc), fun hc => h3 (Or.inr hc)⟩
        refine ⟨?_, ?_⟩
        · rw [List.map_cons, List.nodup_cons]
          refine ⟨?_, hnd⟩
          intro hc
          obtain ⟨x, hx, hxt⟩ := List.mem_map.mp hc
          exact (hfresh x hx).2 hxt
        · intro x hx
          rcases List.mem_cons.mp hx with h | h
          · rw [h]; exact hr
          · exact (hfresh x h).1
      · rintro ⟨hnd, hall⟩
        rw [List.map_cons, List.nodup_cons] at hnd
        refine ⟨hnd.2, ?_⟩
        intro x hx
        have hx1 : x.title ∉ st.map Page.title := hall x (List.mem_cons_of_mem r hx)
        have hx2 : x.title ≠ r.title := by
          intro hc
          exact hnd.1 (List.mem_map.mpr ⟨x, hx, hc⟩)
        simp only [List.map_append, List.mem_append, List.map_cons, List.map_nil,
          List.mem_singleton]
        intro hc
        rcases hc with hc | hc
        · exact hx1 hc
        · exact hx2 hc

/-- The store-level part of C8: insertion fails exactly when some inserted
title is already present or duplicated within the batch; on success the rows
are appended; on failure the error is the distinguishable uniqueness
violation and the transaction leaves the store unchanged. -/
theorem pages_add_spec (st recs : List Page) :
    ((∃ e, pages_add st recs = .error e) ↔
      ¬ ((recs.map Page.title).Nodup ∧
          ∀ r ∈ recs, r.title ∉ st.map Page.title)) ∧
    (∀ l, pages_add st recs = .ok l → l = st ++ recs) ∧
    (∀ e, pages_add st recs = .error e → ∃ t, e = .duplicateTitle t) ∧
    ((∃ e, pages_add st recs = .error e) → pages_add_state st recs = st) := by
  refine ⟨?_, ?_, ?_, ?_⟩
  · rw [← pages_add_go_ok_iff recs st]
    unfold pages_add
    constructor
    · rintro ⟨e, he⟩ ⟨l, hl⟩
      rw [he] at hl
      cases hl
    · intro h
      cases hgo : pages_add_go st recs with
      | ok l => exact absurd ⟨l, hgo⟩ h
      | error e => exact ⟨e, rfl⟩
  · exact fun l => pages_add_go_ok_val recs st l
  · exact fun e => pages_add_go_error_shape recs st e
  · rintro ⟨e, he⟩
    unfold pages_add_state
    rw [he]

/-! ### Filesystem lemmas -/

theorem FS.readFile_isSome_iff_mtime_isSome (fs : FS) (p : FsPath) :
    (fs.readFile p).isSome ↔ (fs.mtime p).isSome := by
  unfold FS.readFile FS.mtime
  cases fs.files.find? (fun e => e.path == p) <;> simp

theorem find?_map_path_preserving (f : FSEntry → FSEntry)
    (hf : ∀ e, (f e).path = e.path) (q : FsPath) (files : List FSEntry) :
    (files.map f).find? (fun e => e.path == q) =
      (files.find? (fun e => e.path == q)).map f := by
  induction files with
  | nil => rfl
  | cons a as ih =>
    rw [List.map_cons]
    by_cases ha : (a.path == q) = true
    · rw [show List.find? (fun e => e.path == q) (f a :: as.map f) = some (f a) from
        List.find?_cons_of_pos _ (by simpa [hf a] using ha),
        show List.find? (fun e => e.path == q) (a :: as) = some a from
        List.find?_cons_of_pos _ (by exact ha)]
      rfl
    · rw [show List.find? (fun e => e.path == q) (f a :: as.map f) =
          List.find? (fun e => e.path == q) (as.map f) from
        List.find?_cons_of_neg _ (by simpa [hf a] using ha),
        show List.find? (fun e => e.path == q) (a :: as) =
          List.find? (fun e => e.path == q) as from
        List.find?_cons_of_neg _ (by exact ha)]
      exact ih

theorem filterMap_glob_path_preserving (cfg : Config) (f : FSEntry → FSEntry)
    (hf : ∀ e, (f e).path = e.path) (files : List FSEntry) :
    ((files.map f).filterMap fun e =>
      if matchesGlob cfg.root cfg.src_extension e.path then some e.path else none) =
    (files.filterMap fun e =>
      if matchesGlob cfg.root cfg.src_extension e.path then some e.path else none) := by
  rw [List.filterMap_map]
  apply List.filterMap_congr
  intro e _
  simp only [Function.comp_apply, hf e]

/-- The path-update function of `FS.write` keeps every entry's path. -/
theorem write_update_path (p : FsPath) (c : String) (e : FSEntry) :
    ((if e.path == p then (⟨p, c, e.mtime + 1⟩ : FSEntry) else e)).path = e.path := by
  by_cases h : (e.path == p) = true
  · rw [if_pos h]
    exact (eq_of_beq h).symm
  · rw [if_neg h]

/-- The path-update function of `FS.touch` keeps every entry's path. -/
theorem touch_update_path (p : FsPath) (c : String) (m : Nat) (e : FSEntry) :
    ((if e.path == p then (⟨p, c, m⟩ : FSEntry) else e)).path = e.path := by
  by_cases h : (e.path == p) = true
  · rw [if_pos h]
    exact (eq_of_beq h).symm
  · rw [if_neg h]

theorem FS.readFile_write_self (fs : FS) (p : FsPath) (c : String) :
    (fs.write p c).readFile p = some c := by
  unfold FS.write FS.readFile
  split
  · rename_i hany
    rw [find?_map_path_preserving _ (write_update_path p c) p fs.files]
    obtain ⟨x, hx, hxp⟩ := List.any_eq_true.mp hany
    have hsome : (fs.files.find? (fun e => e.path == p)).isSome = true :=
      List.find?_isSome.mpr ⟨x, hx, hxp⟩
    obtain ⟨a, ha⟩ := Option.isSome_iff_exists.mp hsome
    rw [ha]
    have hap := List.find?_some ha
    show some ((if (a.path == p : Bool) then (⟨p, c, a.mtime + 1⟩ : FSEntry)
      else a).content) = some c
    rw [if_pos hap]
  · rename_i hany
    have h1 : fs.files.find? (fun e => e.path == p) = none := by
      rw [List.find?_eq_none]
      intro x hx hc
      exact hany (List.any_eq_true.mpr ⟨x, hx, hc⟩)
    rw [List.find?_append, h1]
    rw [show List.find? (fun e => e.path == p) [(⟨p, c, 0⟩ : FSEntry)] =
        some (⟨p, c, 0⟩ : FSEntry) from List.find?_cons_of_pos _ (by simp)]
    rfl

theorem FS.readFile_write_ne (fs : FS) (p q : FsPath) (c : String) (h : q ≠ p) :
    (fs.write p c).readFile q = fs.readFile q := by
  unfold FS.write FS.readFile
  split
  · rw [find?_map_path_preserving _ (write_update_path p c) q fs.files]
    cases hfind : fs.files.find? (fun e => e.path == q) with
    | none => rfl
    | some a =>
      have hap := List.find?_some hfind
      have haq : a.path = q := eq_of_beq hap
      show some ((if (a.path == p : Bool) then (⟨p, c, a.mtime + 1⟩ : FSEntry)
        else a).content) = some a.content
      rw [if_neg (show ¬ (a.path == p) = true from
        fun hc => h (haq.symm.trans (eq_of_beq hc)))]
  · rw [List.find?_append]
    rw [show List.find? (fun e => e.path == q) [(⟨p, c, 0⟩ : FSEntry)] = none from
      List.find?_cons_of_neg _ (by
        show ¬ (p == q) = true
        exact fun hc => h (eq_of_beq hc).symm)]
    cases fs.files.find? (fun e => e.path == q) <;> rfl

theorem FS.mtime_write_ne (fs : FS) (p q : FsPath) (c : String) (h : q ≠ p) :
    (fs.write p c).mtime q = fs.mtime q := by
  unfold FS.write FS.mtime
  split
  · rw [find?_map_path_preserving _ (write_update_path p c) q fs.files]
    cases hfind : fs.files.find? (fun e => e.path == q) with
    | none => rfl
    | some a =>
      have hap := List.find?_some hfind
      have haq : a.path = q := eq_of_beq hap
      show some ((if (a.path == p : Bool) then (⟨p, c, a.mtime + 1⟩ : FSEntry)
        else a).mtime) = some a.mtime
      rw [if_neg (show ¬ (a.path == p) = true from
        fun hc => h (haq.symm.trans (eq_of_beq hc)))]
  · rw [List.find?_append]
    rw [show List.find? (fun e => e.path == q) [(⟨p, c, 0⟩ : FSEntry)] = none from
      List.find?_cons_of_neg _ (by
        show ¬ (p == q) = true
        exact fun hc => h (eq_of_beq hc).symm)]
    cases fs.files.find? (fun e => e.path == q) <;> rfl

theorem FS.readFile_isSome_write (fs : FS) (p q : FsPath) (c : String)
    (h : (fs.readFile q).isSome) : ((fs.write p c).readFile q).isSome := by
  by_cases hqp : q = p
  · rw [hqp, fs.readFile_write_self p c]
    rfl
  · rw [fs.readFile_write_ne p q c hqp]
    exact h

theorem discover_write_not_match (cfg : Config) (fs : FS) (p : FsPath) (c : String)
    (h : matchesGlob cfg.root cfg.src_extension p = false) :
    discover cfg (fs.write p c) = discover cfg fs := by
  unfold FS.write discover
  split
  · exact filterMap_glob_path_preserving cfg _ (write_update_path p c) fs.files
  · rw [List.filterMap_append]
    rw [show ([(⟨p, c, 0⟩ : FSEntry)].filterMap fun e =>
        if matchesGlob cfg.root cfg.src_extension e.path then some e.path else none) =
        [] by simp [h]]
    rw [List.append_nil]

theorem FS.readFile_touch_ne (fs : FS) (p q : FsPath) (c : String) (m : Nat)
    (h : q ≠ p) : (fs.touch p c m).readFile q = fs.readFile q := by
  unfold FS.touch FS.readFile
  rw [find?_map_path_preserving _ (touch_update_path p c m) q fs.files]
  cases hfind : fs.files.find? (fun e => e.path == q) with
  | none => rfl
  | some a =>
    have hap := List.find?_some hfind
    have haq : a.path = q := eq_of_beq hap
    show some ((if (a.path == p : Bool) then (⟨p, c, m⟩ : FSEntry)
      else a).content) = some a.content
    rw [if_neg (show ¬ (a.path == p) = true from
      fun hc => h (haq.symm.trans (eq_of_beq hc)))]

theorem FS.mtime_touch_ne (fs : FS) (p q : FsPath) (c : String) (m : Nat)
    (h : q ≠ p) : (fs.touch p c m).mtime q = fs.mtime q := by
  unfold FS.touch FS.mtime
  rw [find?_map_path_preserving _ (touch_update_path p c m) q fs.files]
  cases hfind : fs.files.find? (fun e => e.path == q) with
  | none => rfl
  | some a =>
    have hap := List.find?_some hfind
    have haq : a.path = q := eq_of_beq hap
    show some ((if (a.path == p : Bool) then (⟨p, c, m⟩ : FSEntry)
      else a).mtime) = some a.mtime
    rw [if_neg (show ¬ (a.path == p) = true from
      fun hc => h (haq.symm.trans (eq_of_beq hc)))]

theorem FS.readFile_touch_self (fs : FS) (p : FsPath) (c : String) (m : Nat)
    (h : (fs.readFile p).isSome) : (fs.touch p c m).readFile p = some c := by
  unfold FS.touch FS.readFile
  rw [find?_map_path_preserving _ (touch_update_path p c m) p fs.files]
  have hsome : (fs.files.find? (fun e => e.path == p)).isSome = true := by
    unfold FS.readFile at h
    cases hfind : fs.files.find? (fun e => e.path == p) with
    | none => rw [hfind] at h; cases h
    | some a => rfl
  obtain ⟨a, ha⟩ := Option.isSome_iff_exists.mp hsome
  rw [ha]
  have hap := List.find?_some ha
  show some ((if (a.path == p : Bool) then (⟨p, c, m⟩ : FSEntry)
    else a).content) = some c
  rw [if_pos hap]

theorem FS.mtime_touch_self (fs : FS) (p : FsPath) (c : String) (m : Nat)
    (h : (fs.readFile p).isSome) : (fs.touch p c m).mtime p = some m := by
  unfold FS.touch FS.mtime
  rw [find?_map_path_preserving _ (touch_update_path p c m) p fs.files]
  have hsome : (fs.files.find? (fun e => e.path == p)).isSome = true := by
    unfold FS.readFile at h
    cases hfind : fs.files.find? (fun e => e.path == p) with
    | none => rw [hfind] at h; cases h
    | some a => rfl
  obtain ⟨a, ha⟩ := Option.isSome_iff_exists.mp hsome
  rw [ha]
  have hap := List.find?_some ha
  show some ((if (a.path == p : Bool) then (⟨p, c, m⟩ : FSEntry)
    else a).mtime) = some m
  rw [if_pos hap]

theorem discover_touch (cfg : Config) (fs : FS) (p : FsPath) (c : String) (m : Nat) :
    discover cfg (fs.touch p c m) = discover cfg fs := by
  unfold FS.touch discover
  exact filterMap_glob_path_preserving cfg _ (touch_update_path p c m) fs.files

theorem readFile_mem_discover (cfg : Config) (fs : FS) (p : FsPath)
    (h : p ∈ discover cfg fs) : (fs.readFile p).isSome := by
  unfold discover at h
  obtain ⟨e, he, hep⟩ := List.mem_filterMap.mp h
  have hpe : e.path = p := by
    by_cases hm : matchesGlob cfg.root cfg.src_extension e.path = true
    · rw [if_pos hm] at hep
      exact Option.some_injective _ hep
    · rw [if_neg hm] at hep
      cases hep
  have hsome : (fs.files.find? (fun e => e.path == p)).isSome = true :=
    List.find?_isSome.mpr ⟨e, he, by simp [hpe]⟩
  unfold FS.readFile
  obtain ⟨a, ha⟩ := Option.isSome_iff_exists.mp hsome
  rw [ha]
  rfl

theorem matches_mem_discover (cfg : Config) (fs : FS) (p : FsPath)
    (h : p ∈ discover cfg fs) :
    matchesGlob cfg.root cfg.src_extension p = true := by
  unfold discover at h
  obtain ⟨e, he, hep⟩ := List.mem_filterMap.mp h
  by_cases hm : matchesGlob cfg.root cfg.src_extension e.path = true
  · rw [if_pos hm] at hep
    rw [← Option.some_injective _ hep]
    exact hm
  · rw [if_neg hm] at hep
    cases hep

/-! ### Render-loop specification -/

/-- When the build directory is not under the project root, no file written
under the build directory is matched by the discovery glob. -/
theorem output_not_matches (cfg : Config) (hdisj : ¬ cfg.root <+: cfg.build_path)
    (f : String) :
    matchesGlob cfg.root cfg.src_extension (cfg.build_path ++ [f]) = false := by
  unfold matchesGlob
  cases hb : cfg.root.isPrefixOf (cfg.build_path ++ [f]) with
  | false => rfl
  | true =>
    have hp := List.isPrefixOf_iff_prefix.mp hb
    by_cases hlen : cfg.root.length ≤ cfg.build_path.length
    · exact absurd
        (List.prefix_of_prefix_length_le hp (List.prefix_append _ _) hlen) hdisj
    · have hlt : ¬ cfg.root.length < (cfg.build_path ++ [f]).length := by
        have hle := hp.length_le
        rw [List.length_append, List.length_singleton] at hle ⊢
        omega
      rw [decide_eq_false hlt]
      rfl

/-- The output location of any page is invisible to discovery when the build
directory is not under the project root. -/
theorem outputPath_not_matches (cfg : Config) (hdisj : ¬ cfg.root <+: cfg.build_path)
    (page : Page) :
    matchesGlob cfg.root cfg.src_extension (outputPath cfg page) = false :=
  output_not_matches cfg hdisj _

/-- Full specification of the render loop: when every page's source exists
and is glob-visible and the build directory is disjoint from the root, the
loop succeeds, stamps every page with its source's marker as observed at loop
entry, leaves discovery and all glob-visible files untouched, keeps every
existing file existing, and leaves every rendered page's output file
present. -/
theorem renderAll_spec (cfg : Config) (hdisj : ¬ cfg.root <+: cfg.build_path) :
    ∀ (pages : List Page) (fs : FS),
    (∀ p ∈ pages, (fs.readFile p.source_path).isSome) →
    (∀ p ∈ pages, matchesGlob cfg.root cfg.src_extension p.source_path = true) →
    (renderAll cfg fs pages).2.2 = none ∧
    (renderAll cfg fs pages).2.1 =
      pages.map (fun p => { p with modified := (fs.mtime p.source_path).getD 0 }) ∧
    discover cfg (renderAll cfg fs pages).1 = discover cfg fs ∧
    (∀ q, matchesGlob cfg.root cfg.src_extension q = true →
      (renderAll cfg fs pages).1.readFile q = fs.readFile q ∧
      (renderAll cfg fs pages).1.mtime q = fs.mtime q) ∧
    (∀ q, (fs.readFile q).isSome → ((renderAll cfg fs pages).1.readFile q).isSome) ∧
    (∀ p' ∈ (renderAll cfg fs pages).2.1,
      ((renderAll cfg fs pages).1.readFile (outputPath cfg p')).isSome) := by
  intro pages
  induction pages with
  | nil =>
    intro fs hsrc hglob
    exact ⟨rfl, rfl, rfl, fun q _ => ⟨rfl, rfl⟩, fun q h => h,
      fun p' hp' => absurd hp' (List.not_mem_nil p')⟩
  | cons p ps ih =>
    intro fs hsrc hglob
    have hs := hsrc p (List.mem_cons_self p ps)
    have hm : (fs.mtime p.source_path).isSome :=
      (FS.readFile_isSome_iff_mtime_isSome fs _).mp hs
    obtain ⟨src, hsrcEq⟩ := Option.isSome_iff_exists.mp hs
    obtain ⟨m, hmEq⟩ := Option.isSome_iff_exists.mp hm
    have hro : renderOne cfg fs p = some
        (fs.write (outputPath cfg { p with modified := m })
          (cfg.render src { p with modified := m }),
         { p with modified := m }) := by
      unfold renderOne
      rw [hsrcEq, hmEq]
    have key : renderAll cfg fs (p :: ps) =
        ((renderAll cfg (fs.write (outputPath cfg { p with modified := m })
            (cfg.render src { p with modified := m })) ps).1,
         { p with modified := m } ::
          (renderAll cfg (fs.write (outputPath cfg { p with modified := m })
            (cfg.render src { p with modified := m })) ps).2.1,
         (renderAll cfg (fs.write (outputPath cfg { p with modified := m })
            (cfg.render src { p with modified := m })) ps).2.2) := by
      rw [renderAll, hro]
    have hout := outputPath_not_matches cfg hdisj { p with modified := m }
    have hglobq : ∀ q, matchesGlob cfg.root cfg.src_extension q = true →
        q ≠ outputPath cfg { p with modified := m } := by
      intro q hq hc
      rw [hc, hout] at hq
      cases hq
    have hglobRead : ∀ q, matchesGlob cfg.root cfg.src_extension q = true →
        (fs.write (outputPath cfg { p with modified := m })
          (cfg.render src { p with modified := m })).readFile q = fs.readFile q := by
      intro q hq
      exact FS.readFile_write_ne fs _ q _ (hglobq q hq)
    have hglobMtime : ∀ q, matchesGlob cfg.root cfg.src_extension q = true →
        (fs.write (outputPath cfg { p with modified := m })
          (cfg.render src { p with modified := m })).mtime q = fs.mtime q := by
      intro q hq
      exact FS.mtime_write_ne fs _ q _ (hglobq q hq)
    have hsrc1 : ∀ x ∈ ps, ((fs.write (outputPath cfg { p with modified := m })
        (cfg.render src { p with modified := m })).readFile x.source_path).isSome := by
      intro x hx
      rw [hglobRead x.source_path (hglob x (List.mem_cons_of_mem p hx))]
      exact hsrc x (List.mem_cons_of_mem p hx)
    have hglob1 : ∀ x ∈ ps,
        matchesGlob cfg.root cfg.src_extension x.source_path = true := by
      intro x hx
      exact hglob x (List.mem_cons_of_mem p hx)
    obtain ⟨ihNone, ihRendered, ihDisc, ihGlobPre, ihSome, ihOuts⟩ :=
      ih (fs.write (outputPath cfg { p with modified := m })
        (cfg.render src { p with modified := m })) hsrc1 hglob1
    rw [key]
    refine ⟨ihNone, ?_, ?_, ?_, ?_, ?_⟩
    · show { p with modified := m } :: _ = _
      rw [List.map_cons]
      congr 1
      · rw [hmEq]
        rfl
      · rw [ihRendered]
        apply List.map_congr_left
        intro x hx
        rw [hglobMtime x.source_path (hglob1 x hx)]
    · rw [ihDisc]
      exact discover_write_not_match cfg fs _ _ hout
    · intro q hq
      refine ⟨?_, ?_⟩
      · rw [(ihGlobPre q hq).1]
        exact hglobRead q hq
      · rw [(ihGlobPre q hq).2]
        exact hglobMtime q hq
    · intro q hq
      exact ihSome q (FS.readFile_isSome_write fs _ q _ hq)
    · intro p' hp'
      rcases List.mem_cons.mp hp' with h | h
      · rw [h]
        apply ihSome
        rw [FS.readFile_write_self]
        rfl
      · exact ihOuts p' h

/-! ### Full-rebuild specification -/

theorem rebuildPages_source_mem (cfg : Config) (st : List FsPath) (p : Page)
    (hp : p ∈ rebuildPages cfg st) : p.source_path ∈ st := by
  unfold rebuildPages at hp
  obtain ⟨q, hq, hqe⟩ := List.mem_map.mp hp
  rw [← hqe, from_source_path_source]
  exact (List.perm_insertionSort _ st).mem_iff.mp hq

/-- The page records of a full rebuild of `fs`, stamped with the markers
observed during the rebuild's render loop. -/
def renderedPages (cfg : Config) (fs : FS) : List Page :=
  (rebuildPages cfg (discover cfg fs)).map
    (fun p => { p with modified := (fs.mtime p.source_path).getD 0 })

/-- The engine state a successful full rebuild of `fs` leaves behind. -/
def builtState (cfg : Config) (fs : FS) : EngineState :=
  ⟨renderedPages cfg fs,
   ⟨renderedPages cfg fs, discover cfg fs, cfg.hashFn (discover cfg fs)⟩⟩

/-- The event trace of a successful full rebuild of `fs`. -/
def buildTrace (cfg : Config) (fs : FS) : List Event :=
  [Event.clearStore, Event.rebuildIndex,
    Event.prepare (rebuildPages cfg (discover cfg fs))] ++
  (renderedPages cfg fs).map Event.renderPage ++
  [Event.insert (renderedPages cfg fs)]

/-- A coherent engine state over a filesystem: the stored fingerprint is
current, and every store record points at a glob-visible source whose marker
matches the record and whose rendered output file exists. -/
def Stable (cfg : Config) (s : EngineState) (fs : FS) : Prop :=
  s.proj.structure_hash_stored = fingerprint cfg fs ∧
  ∀ r ∈ s.store,
    matchesGlob cfg.root cfg.src_extension r.source_path = true ∧
    fs.mtime r.source_path = some r.modified ∧
    (fs.readFile (outputPath cfg r)).isSome

theorem renderedPages_titles (cfg : Config) (fs : FS) :
    (renderedPages cfg fs).map Page.title =
      (rebuildPages cfg (discover cfg fs)).map Page.title := by
  unfold renderedPages
  rw [List.map_map]
  apply List.map_congr_left
  intro x _
  rfl

theorem rebuildPages_src_present (cfg : Config) (fs : FS) :
    ∀ p ∈ rebuildPages cfg (discover cfg fs),
      (fs.readFile p.source_path).isSome :=
  fun p hp =>
    readFile_mem_discover cfg fs _ (rebuildPages_source_mem cfg _ p hp)

theorem rebuildPages_src_glob (cfg : Config) (fs : FS) :
    ∀ p ∈ rebuildPages cfg (discover cfg fs),
      matchesGlob cfg.root cfg.src_extension p.source_path = true :=
  fun p hp =>
    matches_mem_discover cfg fs _ (rebuildPages_source_mem cfg _ p hp)

/-- Full specification of a successful `LiveProject.build`: when the build
directory is disjoint from the root and the derived titles collide nowhere,
the rebuild succeeds; the resulting store, index and trace are exactly the
bulk-replaced rendered records with clear/rebuild/prepare-before-render/insert
in order; discovery and glob-visible files are untouched; and the resulting
state is coherent over the resulting filesystem. -/
theorem buildE_ok_spec (cfg : Config) (hdisj : ¬ cfg.root <+: cfg.build_path)
    (s : EngineState) (fs : FS)
    (hnodup : ((rebuildPages cfg (discover cfg fs)).map Page.title).Nodup) :
    (buildE cfg s fs).res = .ok () ∧
    (buildE cfg s fs).state = builtState cfg fs ∧
    (buildE cfg s fs).tr = buildTrace cfg fs ∧
    discover cfg (buildE cfg s fs).fs = discover cfg fs ∧
    (∀ q, matchesGlob cfg.root cfg.src_extension q = true →
      (buildE cfg s fs).fs.readFile q = fs.readFile q ∧
      (buildE cfg s fs).fs.mtime q = fs.mtime q) ∧
    Stable cfg (buildE cfg s fs).state (buildE cfg s fs).fs := by
  obtain ⟨hNone, hRendered, hDisc, hGlobPre, hSome, hOuts⟩ :=
    renderAll_spec cfg hdisj (rebuildPages cfg (discover cfg fs)) fs
      (rebuildPages_src_present cfg fs) (rebuildPages_src_glob cfg fs)
  have hRenEq : (renderAll cfg fs (rebuildPages cfg (discover cfg fs))).2.1 =
      renderedPages cfg fs := hRendered
  have hNodupR : ((renderedPages cfg fs).map Page.title).Nodup := by
    rw [renderedPages_titles]
    exact hnodup
  have hadd : pages_add [] (renderedPages cfg fs) = .ok (renderedPages cfg fs) := by
    obtain ⟨l, hl⟩ := (pages_add_go_ok_iff (renderedPages cfg fs) []).mpr
      ⟨hNodupR, fun r _ => by simp⟩
    have hv := pages_add_go_ok_val (renderedPages cfg fs) [] l hl
    rw [List.nil_append] at hv
    unfold pages_add
    rw [hl, hv]
  have key : buildE cfg s fs =
      ⟨.ok (), builtState cfg fs,
       (renderAll cfg fs (rebuildPages cfg (discover cfg fs))).1,
       buildTrace cfg fs⟩ := by
    simp only [buildE, projectBuild, hNone, hRenEq, hadd, builtState, buildTrace]
  rw [key]
  refine ⟨rfl, rfl, rfl, hDisc, hGlobPre, ?_, ?_⟩
  · show (builtState cfg fs).proj.structure_hash_stored =
      fingerprint cfg (renderAll cfg fs (rebuildPages cfg (discover cfg fs))).1
    unfold fingerprint
    rw [hDisc]
    rfl
  · intro r hr
    have hr2 : r ∈ renderedPages cfg fs := hr
    unfold renderedPages at hr2
    obtain ⟨p, hp, hpe⟩ := List.mem_map.mp hr2
    have hsrcp : r.source_path = p.source_path := by rw [← hpe]
    have hmodp : r.modified = (fs.mtime p.source_path).getD 0 := by rw [← hpe]
    have hglobp := rebuildPages_src_glob cfg fs p hp
    refine ⟨by rw [hsrcp]; exact hglobp, ?_, ?_⟩
    · rw [hsrcp, (hGlobPre p.source_path hglobp).2, hmodp]
      obtain ⟨m, hm⟩ := Option.isSome_iff_exists.mp
        ((FS.readFile_isSome_iff_mtime_isSome fs _).mp
          (rebuildPages_src_present cfg fs p hp))
      rw [hm]
      rfl
    · apply hOuts
      rw [hRenEq]
      exact hr

/-! ### Lookup-phase lemmas -/

theorem renderOne_shape (cfg : Config) (fs : FS) (p : Page) (fs2 : FS) (p' : Page)
    (h : renderOne cfg fs p = some (fs2, p')) :
    ∃ src m, fs.readFile p.source_path = some src ∧
      fs.mtime p.source_path = some m ∧
      p' = { p with modified := m } ∧
      fs2 = fs.write (outputPath cfg { p with modified := m })
        (cfg.render src { p with modified := m }) := by
  unfold renderOne at h
  cases hr : fs.readFile p.source_path with
  | none =>
    rw [hr] at h
    simp at h
  | some src =>
    cases hm : fs.mtime p.source_path with
    | none =>
      rw [hr, hm] at h
      simp at h
    | some m =>
      rw [hr, hm] at h
      simp only [Option.some_inj] at h
      exact ⟨src, m, rfl, rfl, (congrArg Prod.snd h).symm, (congrArg Prod.fst h).symm⟩

theorem page_get_by_title_found (store : List Page) (t : String) (r : Page)
    (h : page_get_by_title store t = some r) : r.title = t ∧ r ∈ store := by
  unfold page_get_by_title at h
  have h1 := List.find?_some h
  exact ⟨eq_of_beq h1, List.mem_of_find?_eq_some h⟩

theorem update_title_preserved (page r : Page) :
    (if r.title == page.title then { r with modified := page.modified }
      else r).title = r.title := by
  by_cases h : (r.title == page.title) = true
  · rw [if_pos h]
  · rw [if_neg h]

theorem page_update_modified_titles (store : List Page) (page : Page) :
    (page_update_modified store page).map Page.title = store.map Page.title := by
  unfold page_update_modified
  rw [List.map_map]
  apply List.map_congr_left
  intro r _
  exact update_title_preserved page r

theorem page_get_by_title_update (store : List Page) (page : Page) (t : String) :
    page_get_by_title (page_update_modified store page) t =
      (page_get_by_title store t).map
        (fun r => if r.title == page.title then { r with modified := page.modified }
          else r) := by
  unfold page_get_by_title page_update_modified
  induction store with
  | nil => rfl
  | cons a as ih =>
    by_cases ha : (a.title == t) = true
    · rw [List.map_cons,
        show List.find? (fun r => r.title == t)
            ((if a.title == page.title then { a with modified := page.modified }
              else a) :: List.map (fun r =>
                if r.title == page.title then { r with modified := page.modified }
                else r) as) =
          some (if a.title == page.title then { a with modified := page.modified }
            else a) from
          List.find?_cons_of_pos _ (by rw [update_title_preserved]; exact ha),
        List.find?_cons_of_pos _ (by exact ha)]
      rfl
    · rw [List.map_cons,
        show List.find? (fun r => r.title == t)
            ((if a.title == page.title then { a with modified := page.modified }
              else a) :: List.map (fun r =>
                if r.title == page.title then { r with modified := page.modified }
                else r) as) =
          List.find? (fun r => r.title == t)
            (List.map (fun r =>
              if r.title == page.title then { r with modified := page.modified }
              else r) as) from
          List.find?_cons_of_neg _ (by rw [update_title_preserved]; exact ha),
        List.find?_cons_of_neg _ (by exact ha)]
      exact ih

/-- When every store record's marker is current and its output file exists,
the lookup phase performs no render, mutates nothing, and serves the output
file's existing content (or not-found). -/
theorem lookupPhase_stable (cfg : Config) (s : EngineState) (fs : FS)
    (tr0 : List Event) (t : String)
    (hrec : ∀ r ∈ s.store,
      fs.mtime r.source_path = some r.modified ∧
      (fs.readFile (outputPath cfg r)).isSome) :
    (page_get_by_title s.store t = none →
      lookupPhase cfg s fs tr0 t = ⟨.ok none, s, fs, tr0⟩) ∧
    (∀ page, page_get_by_title s.store t = some page →
      lookupPhase cfg s fs tr0 t =
        ⟨.ok (fs.readFile (outputPath cfg page)), s, fs, tr0⟩) := by
  constructor
  · intro h
    simp only [lookupPhase, h]
  · intro page hfind
    have hmem := (page_get_by_title_found s.store t page hfind).2
    obtain ⟨hmt, hout⟩ := hrec page hmem
    obtain ⟨c, hc⟩ := Option.isSome_iff_exists.mp hout
    simp only [lookupPhase, hfind, hmt, bne_self_eq_false, Bool.false_eq_true,
      reduceIte, hc]

/-- The lookup phase never changes the set of stored titles nor the project
index state. -/
theorem lookupPhase_titles (cfg : Config) (s : EngineState) (fs : FS)
    (tr0 : List Event) (t : String) :
    (lookupPhase cfg s fs tr0 t).state.store.map Page.title =
      s.store.map Page.title ∧
    (lookupPhase cfg s fs tr0 t).state.proj = s.proj := by
  unfold lookupPhase
  split
  · exact ⟨rfl, rfl⟩
  · split
    · exact ⟨rfl, rfl⟩
    · split
      · split
        · exact ⟨rfl, rfl⟩
        · split
          · exact ⟨page_update_modified_titles s.store _, rfl⟩
          · exact ⟨page_update_modified_titles s.store _, rfl⟩
      · split
        · exact ⟨rfl, rfl⟩
        · exact ⟨rfl, rfl⟩

/-- The lookup phase answers not-found exactly when the title is absent from
the store. -/
theorem lookupPhase_none_iff (cfg : Config) (s : EngineState) (fs : FS)
    (tr0 : List Event) (t : String) :
    (lookupPhase cfg s fs tr0 t).res = .ok none ↔
      page_get_by_title s.store t = none := by
  constructor
  · intro hres
    cases hfind : page_get_by_title s.store t with
    | none => rfl
    | some page =>
      exfalso
      unfold lookupPhase at hres
      split at hres
      · rename_i heq
        rw [hfind] at heq
        cases heq
      · rename_i page2 heq
        split at hres
        · simp at hres
        · split at hres
          · split at hres
            · simp at hres
            · split at hres
              · simp at hres
              · simp at hres
          · split at hres
            · simp at hres
            · simp at hres
  · intro h
    simp only [lookupPhase, h]

/-! ### Phase composition -/

theorem rebuildPhase_of_need (cfg : Config) (s : EngineState) (fs : FS)
    (h : is_project_needs_rebuild cfg s fs = true) :
    rebuildPhase cfg s fs = buildE cfg s fs := by
  unfold rebuildPhase
  rw [h]
  rfl

theorem rebuildPhase_of_no (cfg : Config) (s : EngineState) (fs : FS)
    (h : is_project_needs_rebuild cfg s fs = false) :
    rebuildPhase cfg s fs = ⟨.ok (), s, fs, []⟩ := by
  unfold rebuildPhase
  rw [h]
  rfl

theorem stable_no_rebuild (cfg : Config) (s : EngineState) (fs : FS)
    (hst : Stable cfg s fs) : is_project_needs_rebuild cfg s fs = false := by
  unfold is_project_needs_rebuild
  rw [hst.1]
  exact bne_self_eq_false _

theorem get_content_phase_ok (cfg : Config) (s : EngineState) (fs : FS) (t : String)
    (u : Unit) (h : (rebuildPhase cfg s fs).res = .ok u) :
    get_rendered_content cfg s fs t =
      lookupPhase cfg (rebuildPhase cfg s fs).state (rebuildPhase cfg s fs).fs
        (rebuildPhase cfg s fs).tr t := by
  simp only [get_rendered_content]
  rw [h]

theorem get_content_phase_error (cfg : Config) (s : EngineState) (fs : FS) (t : String)
    (e : Err) (h : (rebuildPhase cfg s fs).res = .error e) :
    get_rendered_content cfg s fs t =
      ⟨.error e, (rebuildPhase cfg s fs).state, (rebuildPhase cfg s fs).fs,
        (rebuildPhase cfg s fs).tr⟩ := by
  simp only [get_rendered_content]
  rw [h]

/-- The lookup phase over a coherent state serves from cache: nothing is
rendered, no state or filesystem change happens, no event is added, and the
call succeeds. -/
theorem lookupPhase_stable_frame (cfg : Config) (s : EngineState) (fs : FS)
    (tr0 : List Event) (t : String)
    (hrec : ∀ r ∈ s.store,
      fs.mtime r.source_path = some r.modified ∧
      (fs.readFile (outputPath cfg r)).isSome) :
    (lookupPhase cfg s fs tr0 t).state = s ∧
    (lookupPhase cfg s fs tr0 t).fs = fs ∧
    (lookupPhase cfg s fs tr0 t).tr = tr0 ∧
    ∃ v, (lookupPhase cfg s fs tr0 t).res = .ok v := by
  cases hfind : page_get_by_title s.store t with
  | none =>
    rw [(lookupPhase_stable cfg s fs tr0 t hrec).1 hfind]
    exact ⟨rfl, rfl, rfl, none, rfl⟩
  | some page =>
    rw [(lookupPhase_stable cfg s fs tr0 t hrec).2 page hfind]
    exact ⟨rfl, rfl, rfl, fs.readFile (outputPath cfg page), rfl⟩

/-- The full `get_rendered_content` over a coherent state: it serves straight
from the cache with an empty trace and no mutation. -/
theorem get_content_stable (cfg : Config) (s : EngineState) (fs : FS) (t : String)
    (hst : Stable cfg s fs) :
    (page_get_by_title s.store t = none →
      get_rendered_content cfg s fs t = ⟨.ok none, s, fs, []⟩) ∧
    (∀ page, page_get_by_title s.store t = some page →
      get_rendered_content cfg s fs t =
        ⟨.ok (fs.readFile (outputPath cfg page)), s, fs, []⟩) := by
  have hph : rebuildPhase cfg s fs = ⟨.ok (), s, fs, []⟩ :=
    rebuildPhase_of_no cfg s fs (stable_no_rebuild cfg s fs hst)
  have hget := get_content_phase_ok cfg s fs t () (by rw [hph])
  rw [hph] at hget
  have hrec : ∀ r ∈ s.store,
      fs.mtime r.source_path = some r.modified ∧
      (fs.readFile (outputPath cfg r)).isSome :=
    fun r hr => ⟨(hst.2 r hr).2.1, (hst.2 r hr).2.2⟩
  have hlp := lookupPhase_stable cfg s fs [] t hrec
  exact ⟨fun h => by rw [hget]; exact hlp.1 h,
    fun page h => by rw [hget]; exact hlp.2 page h⟩

/-- C7: `get_content` answers not-found (rather than an error) exactly when,
after the freshness check and any triggered full rebuild, the requested title
has no record in the Record Store; in that case no render happens and nothing
beyond the rebuild itself is mutated — the outcome is exactly the freshness
phase's state, filesystem and trace. -/
theorem not_found_semantics (cfg : Config) (s : EngineState) (fs : FS) (t : String)
    (hok : (rebuildPhase cfg s fs).res = .ok ()) :
    ((get_rendered_content cfg s fs t).res = .ok none ↔
      page_get_by_title (rebuildPhase cfg s fs).state.store t = none) ∧
    (page_get_by_title (rebuildPhase cfg s fs).state.store t = none →
      get_rendered_content cfg s fs t =
        ⟨.ok none, (rebuildPhase cfg s fs).state, (rebuildPhase cfg s fs).fs,
          (rebuildPhase cfg s fs).tr⟩) := by
  have hget := get_content_phase_ok cfg s fs t () hok
  constructor
  · rw [hget]
    exact lookupPhase_none_iff cfg _ _ _ t
  · intro h
    rw [hget]
    simp only [lookupPhase, h]

/-- Witness for `not_found_semantics` at a concrete two-page project and a
title that does not exist. -/
theorem not_found_semantics_witness :
    (rebuildPhase cfgEx initEngineState fsNatEx).res = .ok () ∧
    (get_rendered_content cfgEx initEngineState fsNatEx "zzz").res = .ok none := by
  refine ⟨by decide, ?_⟩
  have h := not_found_semantics cfgEx initEngineState fsNatEx "zzz" (by decide)
  exact h.1.mpr (by decide)

/-- C3: whenever the fingerprints differ, `get_content` performs the full
rebuild and nothing else: the whole event trace is — in order — the store
clear, the index rebuild, one prepare call with the complete sorted page list
before any render, one render per derived page, and the bulk insert of the
rendered records; the rendered records are exactly the derived pages stamped
with their observed markers, they all end up in the store, and every page's
output file exists afterwards. -/
theorem full_rebuild_steps (cfg : Config) (s : EngineState) (fs : FS) (t : String)
    (hdisj : ¬ cfg.root <+: cfg.build_path)
    (hneed : is_project_needs_rebuild cfg s fs = true)
    (hnodup : ((rebuildPages cfg (discover cfg fs)).map Page.title).Nodup) :
    (get_rendered_content cfg s fs t).tr =
      [Event.clearStore, Event.rebuildIndex,
        Event.prepare (rebuildPages cfg (discover cfg fs))] ++
      (renderedPages cfg fs).map Event.renderPage ++
      [Event.insert (renderedPages cfg fs)] ∧
    renderedPages cfg fs =
      (rebuildPages cfg (discover cfg fs)).map
        (fun p => { p with modified := (fs.mtime p.source_path).getD 0 }) ∧
    (get_rendered_content cfg s fs t).state.store = renderedPages cfg fs ∧
    (∀ p' ∈ renderedPages cfg fs,
      ((get_rendered_content cfg s fs t).fs.readFile (outputPath cfg p')).isSome) := by
  obtain ⟨hres, hstate, htr, hdisc, hglob, hstable⟩ :=
    buildE_ok_spec cfg hdisj s fs hnodup
  have hphase := rebuildPhase_of_need cfg s fs hneed
  have hget := get_content_phase_ok cfg s fs t () (by rw [hphase]; exact hres)
  rw [hphase, hstate, htr] at hget
  have hrec : ∀ r ∈ (builtState cfg fs).store,
      (buildE cfg s fs).fs.mtime r.source_path = some r.modified ∧
      ((buildE cfg s fs).fs.readFile (outputPath cfg r)).isSome := by
    intro r hr
    rw [← hstate] at hr
    exact ⟨((hstable.2 r hr)).2.1, ((hstable.2 r hr)).2.2⟩
  obtain ⟨hfrs, hffs, hftr, v, hfres⟩ :=
    lookupPhase_stable_frame cfg (builtState cfg fs) (buildE cfg s fs).fs
      (buildTrace cfg fs) t hrec
  refine ⟨?_, rfl, ?_, ?_⟩
  · rw [hget, hftr]
    rfl
  · rw [hget, hfrs]
    rfl
  · intro p' hp'
    rw [hget, hffs]
    have hmem : p' ∈ (buildE cfg s fs).state.store := by
      rw [hstate]
      exact hp'
    exact (hstable.2 p' hmem).2.2

/-! ### Store-membership invariant (C1) -/

theorem renderAll_titles (cfg : Config) :
    ∀ (pages : List Page) (fs : FS),
      (renderAll cfg fs pages).2.2 = none →
      (renderAll cfg fs pages).2.1.map Page.title = pages.map Page.title := by
  intro pages
  induction pages with
  | nil => intro fs _; rfl
  | cons p ps ih =>
    intro fs hnone
    cases hro : renderOne cfg fs p with
    | none =>
      exfalso
      rw [renderAll, hro] at hnone
      simp at hnone
    | some pr =>
      obtain ⟨fs2, p'⟩ := pr
      obtain ⟨src, m, _, _, hp', _⟩ := renderOne_shape cfg fs p fs2 p' hro
      rw [renderAll, hro] at hnone ⊢
      have hnone2 : (renderAll cfg fs2 ps).2.2 = none := hnone
      show (p' :: (renderAll cfg fs2 ps).2.1).map Page.title = (p :: ps).map Page.title
      rw [List.map_cons, List.map_cons, ih fs2 hnone2]
      rw [hp']

theorem buildE_ok_store (cfg : Config) (s : EngineState) (fs : FS)
    (h : ∃ u, (buildE cfg s fs).res = .ok u) :
    (buildE cfg s fs).state.store.map Page.title =
      (rebuildPages cfg (discover cfg fs)).map Page.title ∧
    (buildE cfg s fs).state.proj.structure_stored = discover cfg fs := by
  obtain ⟨u, hu⟩ := h
  cases herr : (renderAll cfg fs (rebuildPages cfg (discover cfg fs))).2.2 with
  | some e =>
    exfalso
    simp only [buildE, projectBuild, herr] at hu
    simp at hu
  | none =>
    cases hadd : pages_add []
        (renderAll cfg fs (rebuildPages cfg (discover cfg fs))).2.1 with
    | error e =>
      exfalso
      simp only [buildE, projectBuild, herr, hadd] at hu
      simp at hu
    | ok store' =>
      have hv := pages_add_go_ok_val _ [] store' hadd
      rw [List.nil_append] at hv
      simp only [buildE, projectBuild, herr, hadd]
      constructor
      · show store'.map Page.title = _
        rw [hv]
        exact renderAll_titles cfg _ fs herr
      · trivial

/-- The C1 coherence invariant: the store's titles are exactly the titles
Identity Derivation produces from the last stored (discovered) source set. -/
def StoreInv (cfg : Config) (s : EngineState) : Prop :=
  s.store.map Page.title =
    (rebuildPages cfg s.proj.structure_stored).map Page.title

/-- C1: at construction the store matches the (empty) discovered set; a
completed full rebuild leaves the store's titles exactly the derived titles
of the discovered set, re-establishing the invariant; every successful
`get_content` preserves the invariant; and absent a rebuild the stored title
set is never changed — membership changes only through the rebuild's bulk
replacement. -/
theorem store_titles_bulk_replaced (cfg : Config) :
    StoreInv cfg initEngineState ∧
    (∀ s fs, (∃ u, (buildE cfg s fs).res = .ok u) →
      (buildE cfg s fs).state.store.map Page.title =
        (rebuildPages cfg (discover cfg fs)).map Page.title ∧
      StoreInv cfg (buildE cfg s fs).state) ∧
    (∀ s fs t, (∃ v, (get_rendered_content cfg s fs t).res = .ok v) →
      StoreInv cfg s → StoreInv cfg (get_rendered_content cfg s fs t).state) ∧
    (∀ s fs t, is_project_needs_rebuild cfg s fs = false →
      (get_rendered_content cfg s fs t).state.store.map Page.title =
        s.store.map Page.title) := by
  have hnoRebuildGet : ∀ s fs t, is_project_needs_rebuild cfg s fs = false →
      get_rendered_content cfg s fs t = lookupPhase cfg s fs [] t := by
    intro s fs t h
    have hph := rebuildPhase_of_no cfg s fs h
    have hget := get_content_phase_ok cfg s fs t () (by rw [hph])
    rw [hph] at hget
    exact hget
  refine ⟨rfl, ?_, ?_, ?_⟩
  · intro s fs hok
    obtain ⟨hst, hstruct⟩ := buildE_ok_store cfg s fs hok
    refine ⟨hst, ?_⟩
    unfold StoreInv
    rw [hst, hstruct]
  · intro s fs t hok hinv
    cases hneed : is_project_needs_rebuild cfg s fs with
    | false =>
      rw [hnoRebuildGet s fs t hneed]
      unfold StoreInv
      rw [(lookupPhase_titles cfg s fs [] t).1, (lookupPhase_titles cfg s fs [] t).2]
      exact hinv
    | true =>
      have hph := rebuildPhase_of_need cfg s fs hneed
      cases hres : (buildE cfg s fs).res with
      | error e =>
        exfalso
        obtain ⟨v, hv⟩ := hok
        rw [get_content_phase_error cfg s fs t e (by rw [hph]; exact hres)] at hv
        simp at hv
      | ok u =>
        have hget := get_content_phase_ok cfg s fs t u (by rw [hph]; exact hres)
        rw [hph] at hget
        rw [hget]
        obtain ⟨hst, hstruct⟩ := buildE_ok_store cfg s fs ⟨u, hres⟩
        unfold StoreInv
        rw [(lookupPhase_titles cfg _ _ _ t).1, (lookupPhase_titles cfg _ _ _ t).2]
        rw [hst, hstruct]
  · intro s fs t hneed
    rw [hnoRebuildGet s fs t hneed]
    exact (lookupPhase_titles cfg s fs [] t).1

/-- Witness for `store_titles_bulk_replaced`: after a successful build of the
concrete two-page project the store's titles are the derived titles, and a
successful `get_content` preserves the invariant. -/
theorem store_titles_bulk_replaced_witness :
    (buildE cfgEx initEngineState fsNatEx).state.store.map Page.title =
      (rebuildPages cfgEx (discover cfgEx fsNatEx)).map Page.title ∧
    StoreInv cfgEx
      (get_rendered_content cfgEx initEngineState fsNatEx "1.2").state := by
  have h := store_titles_bulk_replaced cfgEx
  refine ⟨(h.2.1 initEngineState fsNatEx ⟨(), by decide⟩).1, ?_⟩
  exact h.2.2.1 initEngineState fsNatEx "1.2" ⟨some "z!", by decide⟩ (by exact rfl)

/-- Witness for `full_rebuild_steps` on the concrete three-page project. -/
theorem full_rebuild_steps_witness :
    (get_rendered_content cfgEx initEngineState fsNatEx "1.1").state.store =
      renderedPages cfgEx fsNatEx := by
  have h := full_rebuild_steps cfgEx initEngineState fsNatEx "1.1"
    (by decide) (by decide) (by decide)
  exact h.2.2.1

/-! ### Idempotence (C4) -/

theorem get_content_no_rebuild (cfg : Config) (s : EngineState) (fs : FS)
    (t : String) (h : is_project_needs_rebuild cfg s fs = false) :
    get_rendered_content cfg s fs t = lookupPhase cfg s fs [] t := by
  have hph := rebuildPhase_of_no cfg s fs h
  have hget := get_content_phase_ok cfg s fs t () (by rw [hph])
  rw [hph] at hget
  exact hget

theorem no_rebuild_hash_eq (cfg : Config) (s : EngineState) (fs : FS)
    (h : is_project_needs_rebuild cfg s fs = false) :
    s.proj.structure_hash_stored = fingerprint cfg fs := by
  unfold is_project_needs_rebuild at h
  exact bne_eq_false_iff_eq.mp h

theorem buildE_ok_nodup (cfg : Config) (s : EngineState) (fs : FS)
    (h : ∃ u, (buildE cfg s fs).res = .ok u) :
    ((rebuildPages cfg (discover cfg fs)).map Page.title).Nodup := by
  obtain ⟨u, hu⟩ := h
  cases herr : (renderAll cfg fs (rebuildPages cfg (discover cfg fs))).2.2 with
  | some e =>
    exfalso
    simp only [buildE, projectBuild, herr] at hu
    simp at hu
  | none =>
    cases hadd : pages_add []
        (renderAll cfg fs (rebuildPages cfg (discover cfg fs))).2.1 with
    | error e =>
      exfalso
      simp only [buildE, projectBuild, herr, hadd] at hu
      simp at hu
    | ok store' =>
      have hnd := ((pages_add_go_ok_iff _ []).mp ⟨store', hadd⟩).1
      rw [renderAll_titles cfg _ fs herr] at hnd
      exact hnd

theorem rendersOf_buildTrace (cfg : Config) (fs : FS) :
    rendersOf (buildTrace cfg fs) = renderedPages cfg fs := by
  unfold buildTrace rendersOf
  rw [List.filterMap_append, List.filterMap_append, List.filterMap_map]
  have h1 : ([Event.clearStore, Event.rebuildIndex,
      Event.prepare (rebuildPages cfg (discover cfg fs))].filterMap
      (fun e => match e with | .renderPage p => some p | _ => none)) = [] := rfl
  have h2 : ([Event.insert (renderedPages cfg fs)].filterMap
      (fun e => match e with | .renderPage p => some p | _ => none)) = [] := rfl
  rw [h1, h2, List.nil_append, List.append_nil]
  have h3 : ((fun e => match e with | Event.renderPage p => some p | _ => none) ∘
      Event.renderPage) = some := rfl
  rw [h3, List.filterMap_some]

/-- Evaluation of the lookup phase on a cache hit: title found, marker
matches, output file present. -/
theorem lookupPhase_cache (cfg : Config) (s : EngineState) (fs : FS)
    (tr0 : List Event) (t : String) (page : Page) (m : Nat) (c : String)
    (hfind : page_get_by_title s.store t = some page)
    (hmt : fs.mtime page.source_path = some m)
    (hm : m = page.modified)
    (hread : fs.readFile (outputPath cfg page) = some c) :
    lookupPhase cfg s fs tr0 t = ⟨.ok (some c), s, fs, tr0⟩ := by
  subst hm
  simp only [lookupPhase, hfind, hmt, bne_self_eq_false, Bool.false_eq_true,
    reduceIte, hread]

/-- Evaluation of the lookup phase on a stale page: title found, marker
mismatch; the page is re-rendered, the single-field update is persisted, and
the freshly written output is returned. -/
theorem lookupPhase_render (cfg : Config) (s : EngineState) (fs : FS)
    (tr0 : List Event) (t : String) (page : Page) (src : String) (m : Nat)
    (hfind : page_get_by_title s.store t = some page)
    (hsrcEq : fs.readFile page.source_path = some src)
    (hmt : fs.mtime page.source_path = some m)
    (hbne : m ≠ page.modified) :
    lookupPhase cfg s fs tr0 t =
      ⟨.ok (some (cfg.render src { page with modified := m })),
       ⟨page_update_modified s.store { page with modified := m }, s.proj⟩,
       fs.write (outputPath cfg { page with modified := m })
         (cfg.render src { page with modified := m }),
       tr0 ++ [Event.renderPage { page with modified := m },
         Event.updateMark page.title m]⟩ := by
  have hro : renderOne cfg fs page = some
      (fs.write (outputPath cfg { page with modified := m })
        (cfg.render src { page with modified := m }),
       { page with modified := m }) := by
    unfold renderOne
    rw [hsrcEq, hmt]
  have hread := FS.readFile_write_self fs
    (outputPath cfg { page with modified := m })
    (cfg.render src { page with modified := m })
  have hb : (m != page.modified) = true := bne_iff_ne.mpr hbne
  simp [lookupPhase, hfind, hmt, hb, hro, hread]

/-- Rebasing a second call on the outcome of a first call whose components
are known. -/
theorem second_call_congr (cfg : Config) (t : String)
    (o : Outcome (Option String)) (r : Except Err (Option String))
    (s2 : EngineState) (f2 : FS) (tr2 : List Event)
    (h : o = ⟨r, s2, f2, tr2⟩) :
    get_rendered_content cfg o.state o.fs t = get_rendered_content cfg s2 f2 t := by
  rw [h]

/-- C4: with the build directory outside the root and a store whose records
point at glob-visible sources, two consecutive `get_content` calls for the
same title with no intervening external filesystem change return the same
successful result, the second call renders nothing, and the first call
renders any page at most once. -/
theorem get_content_idempotent (cfg : Config) (s : EngineState) (fs : FS)
    (t : String)
    (hdisj : ¬ cfg.root <+: cfg.build_path)
    (hsrcs : ∀ r ∈ s.store, matchesGlob cfg.root cfg.src_extension r.source_path = true)
    (v : Option String)
    (hok : (get_rendered_content cfg s fs t).res = .ok v) :
    (get_rendered_content cfg (get_rendered_content cfg s fs t).state
      (get_rendered_content cfg s fs t).fs t).res = .ok v ∧
    rendersOf (get_rendered_content cfg (get_rendered_content cfg s fs t).state
      (get_rendered_content cfg s fs t).fs t).tr = [] ∧
    (rendersOf (get_rendered_content cfg s fs t).tr).Nodup := by
  cases hneed : is_project_needs_rebuild cfg s fs with
  | true =>
    have hph := rebuildPhase_of_need cfg s fs hneed
    cases hres : (buildE cfg s fs).res with
    | error e =>
      exfalso
      rw [get_content_phase_error cfg s fs t e (by rw [hph]; exact hres)] at hok
      simp at hok
    | ok u =>
      obtain ⟨hres', hstate, htr, hdisc, hglob, hstable⟩ :=
        buildE_ok_spec cfg hdisj s fs (buildE_ok_nodup cfg s fs ⟨u, hres⟩)
      have hget := get_content_phase_ok cfg s fs t u (by rw [hph]; exact hres)
      rw [hph, hstate, htr] at hget
      have hstable2 : Stable cfg (builtState cfg fs) (buildE cfg s fs).fs := by
        rw [← hstate]
        exact hstable
      have hrec : ∀ r ∈ (builtState cfg fs).store,
          (buildE cfg s fs).fs.mtime r.source_path = some r.modified ∧
          ((buildE cfg s fs).fs.readFile (outputPath cfg r)).isSome :=
        fun r hr => ⟨(hstable2.2 r hr).2.1, (hstable2.2 r hr).2.2⟩
      obtain ⟨hfrs, hffs, hftr, v', hv'⟩ := lookupPhase_stable_frame cfg
        (builtState cfg fs) (buildE cfg s fs).fs (buildTrace cfg fs) t hrec
      have hndr : (rendersOf (get_rendered_content cfg s fs t).tr).Nodup := by
        rw [hget, hftr, rendersOf_buildTrace]
        apply List.Nodup.of_map Page.title
        have hnd := buildE_ok_nodup cfg s fs ⟨u, hres⟩
        rw [← renderedPages_titles cfg fs] at hnd
        exact hnd
      have hsecond : get_rendered_content cfg (get_rendered_content cfg s fs t).state
          (get_rendered_content cfg s fs t).fs t =
          get_rendered_content cfg (builtState cfg fs) (buildE cfg s fs).fs t := by
        rw [hget, hfrs, hffs]
      cases hfind : page_get_by_title (builtState cfg fs).store t with
      | none =>
        have ho1 : get_rendered_content cfg s fs t =
            ⟨.ok none, builtState cfg fs, (buildE cfg s fs).fs, buildTrace cfg fs⟩ := by
          rw [hget]
          exact (lookupPhase_stable cfg _ _ _ t hrec).1 hfind
        have hv : v = none := by
          rw [ho1] at hok
          exact (Except.ok.inj hok).symm
        have ho2 : get_rendered_content cfg (builtState cfg fs)
            (buildE cfg s fs).fs t =
            ⟨.ok none, builtState cfg fs, (buildE cfg s fs).fs, []⟩ :=
          (get_content_stable cfg _ _ t hstable2).1 hfind
        rw [hsecond, ho2, hv]
        exact ⟨rfl, rfl, hndr⟩
      | some page =>
        have ho1 : get_rendered_content cfg s fs t =
            ⟨.ok ((buildE cfg s fs).fs.readFile (outputPath cfg page)),
             builtState cfg fs, (buildE cfg s fs).fs, buildTrace cfg fs⟩ := by
          rw [hget]
          exact (lookupPhase_stable cfg _ _ _ t hrec).2 page hfind
        have hv : (buildE cfg s fs).fs.readFile (outputPath cfg page) = v := by
          rw [ho1] at hok
          exact Except.ok.inj hok
        have ho2 : get_rendered_content cfg (builtState cfg fs)
            (buildE cfg s fs).fs t =
            ⟨.ok ((buildE cfg s fs).fs.readFile (outputPath cfg page)),
             builtState cfg fs, (buildE cfg s fs).fs, []⟩ :=
          (get_content_stable cfg _ _ t hstable2).2 page hfind
        rw [hsecond, ho2, hv]
        exact ⟨rfl, rfl, hndr⟩
  | false =>
    have hget1 := get_content_no_rebuild cfg s fs t hneed
    cases hfind : page_get_by_title s.store t with
    | none =>
      have ho1 : get_rendered_content cfg s fs t = ⟨.ok none, s, fs, []⟩ := by
        rw [hget1]
        simp only [lookupPhase, hfind]
      have hv : v = none := by
        rw [ho1] at hok
        exact (Except.ok.inj hok).symm
      have hsec := second_call_congr cfg t _ _ _ _ _ ho1
      refine ⟨?_, ?_, ?_⟩
      · rw [hsec, ho1, hv]
      · rw [hsec, ho1]
        rfl
      · rw [ho1]
        exact List.nodup_nil
    | some page =>
      have hmem := (page_get_by_title_found s.store t page hfind).2
      have hglobp := hsrcs page hmem
      cases hmt : fs.mtime page.source_path with
      | none =>
        exfalso
        have ho1 : get_rendered_content cfg s fs t =
            ⟨.error (.fileNotFound page.source_path), s, fs, []⟩ := by
          rw [hget1]
          simp only [lookupPhase, hfind, hmt]
        rw [ho1] at hok
        simp at hok
      | some m =>
        by_cases hm : m = page.modified
        · cases hread : fs.readFile (outputPath cfg page) with
          | none =>
            exfalso
            have ho1 : get_rendered_content cfg s fs t =
                ⟨.error (.fileNotFound (outputPath cfg page)), s, fs, []⟩ := by
              rw [hget1]
              subst hm
              simp only [lookupPhase, hfind, hmt, bne_self_eq_false,
                Bool.false_eq_true, reduceIte, hread]
            rw [ho1] at hok
            simp at hok
          | some c =>
            have ho1 : get_rendered_content cfg s fs t =
                ⟨.ok (some c), s, fs, []⟩ := by
              rw [hget1]
              exact lookupPhase_cache cfg s fs [] t page m c hfind hmt hm hread
            have hv : some c = v := by
              rw [ho1] at hok
              exact Except.ok.inj hok
            have hsec := second_call_congr cfg t _ _ _ _ _ ho1
            refine ⟨?_, ?_, ?_⟩
            · rw [hsec, ho1, ← hv]
            · rw [hsec, ho1]
              rfl
            · rw [ho1]
              exact List.nodup_nil
        · have hsrcSome : (fs.readFile page.source_path).isSome := by
            rw [FS.readFile_isSome_iff_mtime_isSome, hmt]
            rfl
          obtain ⟨src, hsrcEq⟩ := Option.isSome_iff_exists.mp hsrcSome
          have ho1 : get_rendered_content cfg s fs t =
              ⟨.ok (some (cfg.render src { page with modified := m })),
               ⟨page_update_modified s.store { page with modified := m }, s.proj⟩,
               fs.write (outputPath cfg { page with modified := m })
                 (cfg.render src { page with modified := m }),
               [] ++ [Event.renderPage { page with modified := m },
                 Event.updateMark page.title m]⟩ := by
            rw [hget1]
            exact lookupPhase_render cfg s fs [] t page src m hfind hsrcEq hmt hm
          have hv : some (cfg.render src { page with modified := m }) = v := by
            rw [ho1] at hok
            exact Except.ok.inj hok
          have houtm := outputPath_not_matches cfg hdisj { page with modified := m }
          have hsrcne : page.source_path ≠
              outputPath cfg { page with modified := m } := by
            intro hc
            rw [hc, houtm] at hglobp
            cases hglobp
          have hneed2 : is_project_needs_rebuild cfg
              ⟨page_update_modified s.store { page with modified := m }, s.proj⟩
              (fs.write (outputPath cfg { page with modified := m })
                (cfg.render src { page with modified := m })) = false := by
            unfold is_project_needs_rebuild
            show (s.proj.structure_hash_stored != _) = false
            rw [no_rebuild_hash_eq cfg s fs hneed]
            unfold fingerprint
            rw [discover_write_not_match cfg fs _ _ houtm]
            exact bne_self_eq_false _
          have hget2 := get_content_no_rebuild cfg
            ⟨page_update_modified s.store { page with modified := m }, s.proj⟩
            (fs.write (outputPath cfg { page with modified := m })
              (cfg.render src { page with modified := m })) t hneed2
          have hfind2 : page_get_by_title
              (page_update_modified s.store { page with modified := m }) t =
              some { page with modified := m } := by
            rw [page_get_by_title_update, hfind]
            simp
          have hmt2 : (fs.write (outputPath cfg { page with modified := m })
              (cfg.render src { page with modified := m })).mtime
              page.source_path = some m := by
            rw [FS.mtime_write_ne fs _ _ _ hsrcne]
            exact hmt
          have hread2 := FS.readFile_write_self fs
            (outputPath cfg { page with modified := m })
            (cfg.render src { page with modified := m })
          have ho2 : get_rendered_content cfg
              ⟨page_update_modified s.store { page with modified := m }, s.proj⟩
              (fs.write (outputPath cfg { page with modified := m })
                (cfg.render src { page with modified := m })) t =
              ⟨.ok (some (cfg.render src { page with modified := m })),
               ⟨page_update_modified s.store { page with modified := m }, s.proj⟩,
               fs.write (outputPath cfg { page with modified := m })
                 (cfg.render src { page with modified := m }), []⟩ := by
            rw [hget2]
            exact lookupPhase_cache cfg _ _ [] t { page with modified := m } m
              (cfg.render src { page with modified := m }) hfind2 hmt2 rfl hread2
          have hsec := second_call_congr cfg t _ _ _ _ _ ho1
          refine ⟨?_, ?_, ?_⟩
          · rw [hsec, ho2, ← hv]
          · rw [hsec, ho2]
            rfl
          · rw [ho1]
            show (rendersOf ([] ++ [Event.renderPage { page with modified := m },
              Event.updateMark page.title m])).Nodup
            simp [rendersOf]

/-- Witness for `get_content_idempotent` on the concrete three-page
project. -/
theorem get_content_idempotent_witness :
    (get_rendered_content cfgEx
      (get_rendered_content cfgEx initEngineState fsNatEx "1.2").state
      (get_rendered_content cfgEx initEngineState fsNatEx "1.2").fs "1.2").res =
      .ok (some "z!") := by
  have h := get_content_idempotent cfgEx initEngineState fsNatEx "1.2"
    (by decide) (by decide) (some "z!") (by decide)
  exact h.1

/-! ### Single-change re-render (C5) -/

/-- A two-page project used by the C5 counterexample and witness. -/
def fsAB : FS := ⟨[⟨["r", "a.html"], "A", 1⟩, ⟨["r", "b.html"], "B", 2⟩]⟩

/-- The engine state after a full rebuild of the two-page project. -/
def sAB : EngineState := (buildE cfgEx initEngineState fsAB).state

/-- The filesystem after the rebuild of the two-page project followed by an
external edit of `a.html` (new content, new marker). -/
def fsAB1 : FS :=
  ((buildE cfgEx initEngineState fsAB).fs.touch ["r", "a.html"] "A2" 9)

/-- C5 counterexample: after `a.html` changed (its stored record is stale),
calling `get_content` with the other title `b` succeeds yet re-renders
nothing at all — the changed page is not re-rendered, contradicting
"re-renders exactly the changed page" for calls with any title. -/
theorem single_change_any_title_cex :
    (∃ r ∈ sAB.store, r.source_path = ["r", "a.html"] ∧
      fsAB1.mtime r.source_path ≠ some r.modified) ∧
    (get_rendered_content cfgEx sAB fsAB1 "b").res = .ok (some "B!") ∧
    rendersOf (get_rendered_content cfgEx sAB fsAB1 "b").tr = [] :=
  ⟨by decide, by decide, by decide⟩

/-- C5 amended: over a coherent state, after exactly one source file's
content and marker change, requesting the changed page's title re-renders
exactly that page, returns content rendered from the new source, and persists
only that record's marker (all other records unchanged); requesting any other
title renders nothing and leaves the engine state completely unchanged. -/
theorem single_change_rerender (cfg : Config) (s : EngineState) (fs : FS)
    (hdisj : ¬ cfg.root <+: cfg.build_path)
    (hst : Stable cfg s fs)
    (q : FsPath) (newC : String) (newM : Nat) (rq : Page)
    (hrq : rq ∈ s.store) (hq : rq.source_path = q)
    (huniq : ∀ r ∈ s.store, r.source_path = q → r = rq)
    (hM : newM ≠ rq.modified) :
    (page_get_by_title s.store rq.title = some rq →
      (get_rendered_content cfg s (fs.touch q newC newM) rq.title).res =
        .ok (some (cfg.render newC { rq with modified := newM })) ∧
      rendersOf (get_rendered_content cfg s (fs.touch q newC newM) rq.title).tr =
        [{ rq with modified := newM }] ∧
      (get_rendered_content cfg s (fs.touch q newC newM) rq.title).state.store =
        s.store.map (fun r =>
          if r.title == rq.title then { r with modified := newM } else r)) ∧
    (∀ t, t ≠ rq.title →
      rendersOf (get_rendered_content cfg s (fs.touch q newC newM) t).tr = [] ∧
      (get_rendered_content cfg s (fs.touch q newC newM) t).state = s) := by
  have hqglob : matchesGlob cfg.root cfg.src_extension q = true := by
    rw [← hq]
    exact (hst.2 rq hrq).1
  have hqsome : (fs.readFile q).isSome := by
    rw [FS.readFile_isSome_iff_mtime_isSome, ← hq, (hst.2 rq hrq).2.1]
    rfl
  have hneed1 : is_project_needs_rebuild cfg s (fs.touch q newC newM) = false := by
    unfold is_project_needs_rebuild
    rw [hst.1]
    unfold fingerprint
    rw [discover_touch]
    exact bne_self_eq_false _
  constructor
  · intro hfind
    have hget1 := get_content_no_rebuild cfg s (fs.touch q newC newM) rq.title
      hneed1
    have hmt1 : (fs.touch q newC newM).mtime rq.source_path = some newM := by
      rw [hq]
      exact FS.mtime_touch_self fs q newC newM hqsome
    have hsrc1 : (fs.touch q newC newM).readFile rq.source_path = some newC := by
      rw [hq]
      exact FS.readFile_touch_self fs q newC newM hqsome
    have ho1 : get_rendered_content cfg s (fs.touch q newC newM) rq.title =
        ⟨.ok (some (cfg.render newC { rq with modified := newM })),
         ⟨page_update_modified s.store { rq with modified := newM }, s.proj⟩,
         (fs.touch q newC newM).write
           (outputPath cfg { rq with modified := newM })
           (cfg.render newC { rq with modified := newM }),
         [] ++ [Event.renderPage { rq with modified := newM },
           Event.updateMark rq.title newM]⟩ := by
      rw [hget1]
      exact lookupPhase_render cfg s (fs.touch q newC newM) [] rq.title rq newC
        newM hfind hsrc1 hmt1 hM
    rw [ho1]
    exact ⟨rfl, rfl, rfl⟩
  · intro t ht
    have hget1 := get_content_no_rebuild cfg s (fs.touch q newC newM) t hneed1
    cases hfind : page_get_by_title s.store t with
    | none =>
      have ho : get_rendered_content cfg s (fs.touch q newC newM) t =
          ⟨.ok none, s, fs.touch q newC newM, []⟩ := by
        rw [hget1]
        simp only [lookupPhase, hfind]
      rw [ho]
      exact ⟨rfl, rfl⟩
    | some r' =>
      obtain ⟨hr't, hr'mem⟩ := page_get_by_title_found s.store t r' hfind
      have hr'ne : r' ≠ rq := by
        intro hc
        rw [hc] at hr't
        exact ht hr't.symm
      have hr'src : r'.source_path ≠ q := by
        intro hc
        exact hr'ne (huniq r' hr'mem hc)
      have hmt' : (fs.touch q newC newM).mtime r'.source_path =
          some r'.modified := by
        rw [FS.mtime_touch_ne fs q r'.source_path newC newM hr'src]
        exact (hst.2 r' hr'mem).2.1
      have houtne : outputPath cfg r' ≠ q := by
        intro hc
        rw [← hc] at hqglob
        rw [outputPath_not_matches cfg hdisj r'] at hqglob
        cases hqglob
      have hread' : (fs.touch q newC newM).readFile (outputPath cfg r') =
          fs.readFile (outputPath cfg r') :=
        FS.readFile_touch_ne fs q (outputPath cfg r') newC newM houtne
      obtain ⟨c, hc⟩ := Option.isSome_iff_exists.mp ((hst.2 r' hr'mem).2.2)
      have ho : get_rendered_content cfg s (fs.touch q newC newM) t =
          ⟨.ok (some c), s, fs.touch q newC newM, []⟩ := by
        rw [hget1]
        exact lookupPhase_cache cfg s (fs.touch q newC newM) [] t r' r'.modified c
          hfind hmt' rfl (by rw [hread']; exact hc)
      rw [ho]
      exact ⟨rfl, rfl⟩

/-- The stale record of the C5 scenario: page `a` as stored by the
rebuild. -/
def rqAB : Page := ⟨"a", ["r", "a.html"], "", 1⟩

/-- Witness for `single_change_rerender` on the concrete two-page project. -/
theorem single_change_rerender_witness :
    (get_rendered_content cfgEx sAB fsAB1 "a").res = .ok (some "A2!") ∧
    rendersOf (get_rendered_content cfgEx sAB fsAB1 "a").tr =
      [{ rqAB with modified := 9 }] := by
  have h := single_change_rerender cfgEx sAB (buildE cfgEx initEngineState fsAB).fs
    (by decide) (by unfold Stable; decide) ["r", "a.html"] "A2" 9 rqAB (by decide)
    (by decide) (by decide) (by decide)
  have h1 := h.1 (by decide)
  exact ⟨h1.1, h1.2.1⟩

/-! ### Duplicate-title failure (C8) -/

theorem buildE_dup_spec (cfg : Config) (hdisj : ¬ cfg.root <+: cfg.build_path)
    (s : EngineState) (fs : FS)
    (hdup : ¬ ((rebuildPages cfg (discover cfg fs)).map Page.title).Nodup) :
    (∃ t, (buildE cfg s fs).res = .error (.duplicateTitle t)) ∧
    (buildE cfg s fs).state.store = [] := by
  obtain ⟨hNone, hRendered, hDisc, hGlobPre, hSome, hOuts⟩ :=
    renderAll_spec cfg hdisj (rebuildPages cfg (discover cfg fs)) fs
      (rebuildPages_src_present cfg fs) (rebuildPages_src_glob cfg fs)
  have hRenEq : (renderAll cfg fs (rebuildPages cfg (discover cfg fs))).2.1 =
      renderedPages cfg fs := hRendered
  have hNodupR : ¬ ((renderedPages cfg fs).map Page.title).Nodup := by
    rw [renderedPages_titles]
    exact hdup
  have hnotok : ¬ ∃ l, pages_add_go [] (renderedPages cfg fs) = .ok l := by
    rw [pages_add_go_ok_iff]
    rintro ⟨hn, -⟩
    exact hNodupR hn
  obtain ⟨e, he⟩ : ∃ e, pages_add [] (renderedPages cfg fs) = .error e := by
    cases hgo : pages_add_go [] (renderedPages cfg fs) with
    | ok l => exact absurd ⟨l, hgo⟩ hnotok
    | error e => exact ⟨e, hgo⟩
  obtain ⟨t, ht⟩ := pages_add_go_error_shape (renderedPages cfg fs) [] e he
  have key : (buildE cfg s fs).res = .error e ∧
      (buildE cfg s fs).state.store = [] := by
    constructor
    · simp only [buildE, projectBuild, hNone, hRenEq, he]
    · simp only [buildE, projectBuild, hNone, hRenEq, he]
  exact ⟨⟨t, by rw [key.1, ht]⟩, key.2⟩

/-- C8: bulk insertion fails with the distinguishable duplicate-title error
exactly when an inserted title is already present or duplicated within the
batch; on failure the transaction is rolled back so the prior rows are left
untouched; and the engine surfaces a rebuild's bulk-insert error to the
caller verbatim with no subset of the records persisted (the store is left
empty). -/
theorem bulk_insert_duplicate (cfg : Config) (s : EngineState) (fs : FS)
    (ttl : String)
    (hdisj : ¬ cfg.root <+: cfg.build_path)
    (hneed : is_project_needs_rebuild cfg s fs = true)
    (hdup : ¬ ((rebuildPages cfg (discover cfg fs)).map Page.title).Nodup) :
    (∀ st recs, (∃ e, pages_add st recs = .error e) ↔
      ¬ ((recs.map Page.title).Nodup ∧
        ∀ r ∈ recs, r.title ∉ st.map Page.title)) ∧
    (∀ st recs e, pages_add st recs = .error e → ∃ t, e = .duplicateTitle t) ∧
    (∀ st recs, (∃ e, pages_add st recs = .error e) →
      pages_add_state st recs = st) ∧
    (∃ t, (get_rendered_content cfg s fs ttl).res =
      .error (.duplicateTitle t)) ∧
    (get_rendered_content cfg s fs ttl).state.store = [] := by
  obtain ⟨⟨t, hres⟩, hstore⟩ := buildE_dup_spec cfg hdisj s fs hdup
  have hph := rebuildPhase_of_need cfg s fs hneed
  have hget := get_content_phase_error cfg s fs ttl (.duplicateTitle t)
    (by rw [hph]; exact hres)
  rw [hph] at hget
  refine ⟨fun st recs => (pages_add_spec st recs).1,
    fun st recs => (pages_add_spec st recs).2.2.1,
    fun st recs => (pages_add_spec st recs).2.2.2, ⟨t, ?_⟩, ?_⟩
  · rw [hget]
  · rw [hget]
    exact hstore

/-- A project in which `a/index.html` and `a.html` derive the same title
`a`. -/
def fsDup : FS :=
  ⟨[⟨["r", "a", "index.html"], "X", 1⟩, ⟨["r", "a.html"], "Y", 2⟩]⟩

/-- Witness for `bulk_insert_duplicate` on the concrete colliding project. -/
theorem bulk_insert_duplicate_witness :
    (∃ t, (get_rendered_content cfgEx initEngineState fsDup "a").res =
      .error (.duplicateTitle t)) ∧
    (get_rendered_content cfgEx initEngineState fsDup "a").state.store = [] := by
  have h := bulk_insert_duplicate cfgEx initEngineState fsDup "a" (by decide)
    (by decide) (by decide)
  exact ⟨h.2.2.2.1, h.2.2.2.2⟩

end Crow